import Mathlib

/-!
Verification of the piqrypt-session multi-agent session coordinator.

This file gives a shallow embedding, in Lean 4, of the Python module
`src/__init__.py` (classes `AgentMember` and `AgentSession`), and proves
the specified properties about it.  Python dictionaries are embedded as
insertion-ordered association lists, Python object mutation as explicit
state passing, and raised exceptions as an `Except` value returned next
to the (possibly partially mutated) state.  External collaborators from
the `piqrypt` / `aiss` package (identity loading, event signing, content
hashing, persistence) are excluded from the repository and assumed
correct; they are modelled here as concrete deterministic functions that
produce non-empty strings, as the spec requires of them.
-/

set_option maxRecDepth 1000000

deriving instance DecidableEq for Except

/-- Payload values appearing in events: strings, integers and lists of
strings (participant lists).  Embeds the value space the Python module
actually stores in payloads. -/
inductive Value where
  | str (s : String)
  | nat (n : Nat)
  | strList (xs : List String)
  deriving DecidableEq, Repr

/-- A Python dict with string keys, embedded as an insertion-ordered
association list. -/
abbrev Dict := List (String × Value)

/-- Lookup of a key in an association list (first occurrence), embedding
Python dict lookup. -/
def aget {α : Type} : List (String × α) → String → Option α
  | [], _ => none
  | (k0, v0) :: rest, k => if k0 = k then some v0 else aget rest k

/-- Update of a key in an association list: replaces the value at the first
occurrence of the key, appends at the end if the key is absent.  Embeds
Python `d[k] = v` (insertion order preserved, existing key keeps its
position). -/
def aset {α : Type} : List (String × α) → String → α → List (String × α)
  | [], k, v => [(k, v)]
  | (k0, v0) :: rest, k, v =>
      if k0 = k then (k, v) :: rest else (k0, v0) :: aset rest k v

/-- Modelled external primitive: hex digit table. -/
def hexDigit (n : Nat) : Char :=
  Char.ofNat (if n < 10 then 48 + n else 87 + n)

/-- Modelled external primitive: fixed-width hex rendering of a number. -/
def toHexFixed : Nat → Nat → String
  | 0, _ => ""
  | w + 1, n => toHexFixed w (n / 16) ++ String.singleton (hexDigit (n % 16))

/-- Modelled external primitive: a deterministic numeric hash of a string. -/
def strHashNat (s : String) : Nat :=
  s.data.foldl (fun h c => (h * 131 + c.toNat) % 18446744073709551616) 5381

/-- Modelled from the spec (section 4.1 ContentDigest): stands in for
`hashlib.sha256(...).hexdigest()`, an external collaborator assumed
correct.  A deterministic, fixed-length, non-empty hex string. -/
def sha256hexModel (s : String) : String :=
  toHexFixed 16 (strHashNat s)

/-- Rendering of a value, embedding Python `str(value)` (string list
quoting elided; only determinism matters to the digests). -/
def Value.render : Value → String
  | .str s => s
  | .nat n => Nat.repr n
  | .strList xs => "[" ++ String.intercalate ", " xs ++ "]"

/-- Embeds the module helper `_h(value)`: SHA-256 digest of `str(value)`
(the leading underscore is not a legal Lean name). -/
def hashValue (v : Value) : String :=
  sha256hexModel v.render

/-- `_h` applied to an already-built string (f-string arguments). -/
def hashStr (s : String) : String :=
  sha256hexModel s

/-- One signed entry of an agent's log, embedding the event dict produced
by `aiss.stamp_event` / `build_cosigned_handshake_event`. -/
structure Event where
  agent_id : String
  payload : Dict
  previous_hash : String
  signature : String
  deriving DecidableEq, Repr

/-- Deterministic rendering of a dict, feeding the event digest model. -/
def renderDict (d : Dict) : String :=
  String.intercalate "; " (d.map (fun p => p.1 ++ "=" ++ p.2.render))

/-- Deterministic rendering of an event, feeding the event digest model. -/
def renderEvent (e : Event) : String :=
  e.agent_id ++ "|" ++ renderDict e.payload ++ "|" ++ e.previous_hash ++ "|" ++ e.signature

/-- Modelled external collaborator (spec section 6, `digest_event`):
`aiss.compute_event_hash`, same digest family as ContentDigest. -/
def computeEventHash (e : Event) : String :=
  sha256hexModel (renderEvent e)

/-- Modelled external collaborator (spec section 6, `sign_event`):
`aiss.stamp_event`.  Produces the signed event; the signature string is
non-empty.  `aiss.store_event` (persistence) is modelled as the
always-succeeding identity, per the spec assumption that collaborators
are correct and available. -/
def stampEvent (private_key agent_id : String) (payload : Dict) (previous_hash : String) : Event :=
  { agent_id := agent_id
  , payload := payload
  , previous_hash := previous_hash
  , signature := "sig_" ++ sha256hexModel (private_key ++ "|" ++ renderDict payload ++ "|" ++ previous_hash) }

/-- Long-term identity record returned by the identity loader. -/
structure Identity where
  private_key : String
  public_key : String
  agent_id : String
  deriving DecidableEq

/-- Modelled external collaborator (spec section 6, `load_identity`):
`aiss.load_identity`.  Deterministic in the identity file; produces a
non-empty agent id. -/
def loadIdentity (identity_file : String) : Identity :=
  { private_key := "priv_" ++ identity_file
  , public_key := "pub_" ++ identity_file
  , agent_id := "id_" ++ identity_file }

/-- Embeds Python `x or "genesis"` on the optional `previous_hash` field
(`None` and the empty string are both falsy). -/
def pyOrGenesis : Option String → String
  | none => "genesis"
  | some s => if s = "" then "genesis" else s

/-- One agent participant: embeds class `AgentMember` (`name`,
`private_key`, `public_key`, `agent_id`, `previous_hash`, `_events`). -/
structure AgentMember where
  name : String
  private_key : String
  public_key : String
  agent_id : String
  previous_hash : Option String
  events : List Event
  deriving DecidableEq

/-- Embeds `AgentMember.__init__`. -/
def AgentMember.init (name identity_file : String) : AgentMember :=
  let identity := loadIdentity identity_file
  { name := name
  , private_key := identity.private_key
  , public_key := identity.public_key
  , agent_id := identity.agent_id
  , previous_hash := none
  , events := [] }

/-- Embeds `AgentMember.stamp`: merge the payload with session metadata,
conditionally attach peer fields (Python truthiness on the optional
arguments), sign with the current chain head as `previous_hash`, advance
the chain head to the new event's digest and append to the log. -/
def AgentMember.stamp (m : AgentMember) (event_type : String) (payload : Dict)
    (session_id : String) (peer_id : Option String) (peer_signature : Option String) :
    AgentMember × Event :=
  let full0 := aset (aset (aset payload "event_type" (Value.str event_type))
      "session_id" (Value.str session_id)) "aiss_profile" (Value.str "AISS-1")
  let full1 := match peer_id with
    | some pid => if pid = "" then full0 else aset full0 "peer_agent_id" (Value.str pid)
    | none => full0
  let full2 := match peer_signature with
    | some sg => if sg = "" then full1 else aset full1 "peer_signature" (Value.str sg)
    | none => full1
  let event := stampEvent m.private_key m.agent_id full2 (pyOrGenesis m.previous_hash)
  ({ m with previous_hash := some (computeEventHash event), events := m.events ++ [event] }, event)

/-- The chain head a stamp would link to: embeds the expression
`self.previous_hash or "genesis"`. -/
def AgentMember.chainHead (m : AgentMember) : String :=
  pyOrGenesis m.previous_hash

/-- `chainFrom g l` holds when the events of `l`, in order, link
`previous_hash`-wise starting from `g`, each next one to the digest of
the one before it. -/
def chainFrom : String → List Event → Bool
  | _, [] => true
  | g, e :: rest => (e.previous_hash == g) && chainFrom (computeEventHash e) rest

/-- The digest of the last event of `l`, or `g` when `l` is empty. -/
def lastLink (g : String) (l : List Event) : String :=
  match l.getLast? with
  | none => g
  | some e => computeEventHash e

/-- The chain discipline for one agent: the log links from `"genesis"`
and the chain head equals the digest of the last event (or `"genesis"`
on an empty log). -/
def memberOk (m : AgentMember) : Bool :=
  chainFrom "genesis" m.events && (m.chainHead == lastLink "genesis" m.events)

/-- Record of one completed pairwise handshake, embedding the dict
returned by `AgentSession._handshake_pair`. -/
structure Handshake where
  agent_a : String
  agent_b : String
  agent_a_id : String
  agent_b_id : String
  session_id : String
  event_a_hash : String
  event_b_hash : String
  timestamp : Nat
  deriving DecidableEq, Repr

/-- The fixed capability vocabulary advertised in every handshake. -/
def capabilitiesModel : List String :=
  ["stamp", "verify", "a2a", "session"]

/-- Modelled external collaborator (spec sections 4.3 and 6):
`create_identity_proposal`.  A signed structure over the initiator's
public key, agent id, capability set and metadata, rendered as a
deterministic string. -/
def createIdentityProposal (private_key public_key agent_id : String)
    (caps : List String) (session_id name : String) : String :=
  "proposal(" ++ public_key ++ "," ++ agent_id ++ "," ++ String.intercalate "+" caps
    ++ "," ++ session_id ++ "," ++ name ++ ")sig"
    ++ sha256hexModel (private_key ++ "|" ++ session_id ++ "|" ++ name)

/-- Modelled external collaborator (spec sections 4.3 and 6):
`create_identity_response`.  A signed structure over the responder's
identity plus the received proposal. -/
def createIdentityResponse (private_key public_key agent_id proposal : String)
    (caps : List String) : String :=
  "response(" ++ public_key ++ "," ++ agent_id ++ "," ++ String.intercalate "+" caps
    ++ "," ++ proposal ++ ")sig" ++ sha256hexModel (private_key ++ "|" ++ proposal)

/-- Modelled external collaborator (spec sections 4.3 and 6):
`build_cosigned_handshake_event`.  Builds one co-signed event over the
(proposal, response) pair, chained through `previous_hash`; its
`event_type` is the handshake classification. -/
def buildCosignedHandshakeEvent (private_key agent_id proposal response previous_hash : String) :
    Event :=
  { agent_id := agent_id
  , payload := [("event_type", Value.str "handshake"),
      ("proposal", Value.str proposal), ("response", Value.str response)]
  , previous_hash := previous_hash
  , signature := "cosig_" ++ sha256hexModel
      (private_key ++ "|" ++ proposal ++ "|" ++ response ++ "|" ++ previous_hash) }

/-- Embeds `AgentSession._handshake_pair`: proposal by A, response by B,
one co-signed event appended to each agent's log (each chained to its
own head, with `session_id` and `peer_name` injected into the payload),
returning the updated agents and the handshake record. -/
def handshakePair (session_id : String) (now : Nat) (agent_a agent_b : AgentMember) :
    AgentMember × AgentMember × Handshake :=
  let proposal := createIdentityProposal agent_a.private_key agent_a.public_key
    agent_a.agent_id capabilitiesModel session_id agent_a.name
  let response := createIdentityResponse agent_b.private_key agent_b.public_key
    agent_b.agent_id proposal capabilitiesModel
  let ea0 := buildCosignedHandshakeEvent agent_a.private_key agent_a.agent_id
    proposal response (pyOrGenesis agent_a.previous_hash)
  let pa := aset (aset ea0.payload "session_id" (Value.str session_id)) "peer_name" (Value.str agent_b.name)
  let ea := { ea0 with payload := pa }
  let a2 := { agent_a with previous_hash := some (computeEventHash ea)
                         , events := agent_a.events ++ [ea] }
  let eb0 := buildCosignedHandshakeEvent agent_b.private_key agent_b.agent_id
    proposal response (pyOrGenesis agent_b.previous_hash)
  let pb := aset (aset eb0.payload "session_id" (Value.str session_id)) "peer_name" (Value.str agent_a.name)
  let eb := { eb0 with payload := pb }
  let b2 := { agent_b with previous_hash := some (computeEventHash eb)
                         , events := agent_b.events ++ [eb] }
  (a2, b2,
    { agent_a := agent_a.name
    , agent_b := agent_b.name
    , agent_a_id := agent_a.agent_id
    , agent_b_id := agent_b.agent_id
    , session_id := session_id
    , event_a_hash := computeEventHash ea
    , event_b_hash := computeEventHash eb
    , timestamp := now })

/-- The error kinds the module raises: `RuntimeError`, `KeyError`,
`ValueError`. -/
inductive Err where
  | runtimeError (msg : String)
  | keyError (msg : String)
  | valueError (msg : String)
  deriving DecidableEq, Repr

/-- The session coordinator state, embedding class `AgentSession`
(`session_id`, `started_at`, `started`, `_agents`, `_handshakes`).
Python has no distinct `ended` state: `started` is the only lifecycle
flag. -/
structure AgentSession where
  session_id : String
  started_at : Option Nat
  started : Bool
  agents : List (String × AgentMember)
  handshakes : List Handshake
  deriving DecidableEq

/-- Embeds `AgentSession.__init__`: a `ValueError` for fewer than two
agent definitions, otherwise a fresh session whose registry is built by
repeated dict assignment (later duplicates overwrite earlier names).
The random `uuid4().hex` draw is passed in explicitly. -/
def mkAgentSession (agents : List (String × String)) (uuid_hex : String) :
    Except Err AgentSession :=
  if agents.length < 2 then
    .error (.valueError "AgentSession requires at least 2 agents.")
  else
    .ok { session_id := "sess_" ++ uuid_hex.take 16
        , started_at := none
        , started := false
        , agents := agents.foldl (fun reg nf => aset reg nf.1 (AgentMember.init nf.1 nf.2)) []
        , handshakes := [] }

/-- One row of the pairwise fan-out: the head agent (initiator, index i)
handshakes with each later agent in order (j = i+1, i+2, ...),
its own state threading through the row.  Embeds the inner loop of
`AgentSession.start`. -/
def fanoutStep (session_id : String) (now : Nat) :
    AgentMember → List AgentMember → AgentMember × List AgentMember × List Handshake
  | a, [] => (a, [], [])
  | a, b :: rest =>
      let r1 := handshakePair session_id now a b
      let r2 := fanoutStep session_id now r1.1 rest
      (r2.1, r1.2.1 :: r2.2.1, r1.2.2 :: r2.2.2)

theorem fanoutStep_keeps_length (session_id : String) (now : Nat) :
    ∀ (a : AgentMember) (bs : List AgentMember),
    (fanoutStep session_id now a bs).2.1.length = bs.length := by
  intro a bs
  induction bs generalizing a with
  | nil => rfl
  | cons b rest ih => simp [fanoutStep, ih]

/-- Fuel-indexed form of the fan-out; the fuel always equals the length
of the member list (each row consumes exactly one member, and a row
keeps the length of its tail). -/
def fanoutAux (session_id : String) (now : Nat) :
    Nat → List AgentMember → List AgentMember × List Handshake
  | 0, ms => (ms, [])
  | _ + 1, [] => ([], [])
  | fuel + 1, a :: rest =>
      let r1 := fanoutStep session_id now a rest
      let r2 := fanoutAux session_id now fuel r1.2.1
      (r1.1 :: r2.1, r1.2.2 ++ r2.2)

/-- The full pairwise fan-out over all rows, embedding the nested loops
of `AgentSession.start`: every unordered pair (i, j) with i < j, in
ascending registration order. -/
def fanout (session_id : String) (now : Nat) (ms : List AgentMember) :
    List AgentMember × List Handshake :=
  fanoutAux session_id now ms.length ms

/-- The `session_start` payload literal from `AgentSession.start`. -/
def sessionStartPayload (session_id : String) (ids names : List String) : Dict :=
  [("session_id", Value.str session_id),
   ("participants", Value.strList ids),
   ("participant_names", Value.strList names),
   ("agent_count", Value.nat ids.length)]

/-- Embeds `AgentSession.start`: a `RuntimeError` when already started;
otherwise set `started_at`, stamp one `session_start` event into every
agent's log, run the pairwise handshake fan-out, record the handshake
results and set `started`.  The raised-exception case returns the
untouched state next to the error. -/
def AgentSession.start (s : AgentSession) (now : Nat) : AgentSession × Except Err Unit :=
  if s.started then
    (s, .error (.runtimeError ("Session " ++ s.session_id ++ " already started.")))
  else
    let ids := s.agents.map (fun p => p.2.agent_id)
    let names := s.agents.map Prod.fst
    let stamped := s.agents.map (fun p =>
      (p.2.stamp "session_start" (sessionStartPayload s.session_id ids names)
        s.session_id none none).1)
    let fr := fanout s.session_id now stamped
    ({ s with started_at := some now
            , agents := names.zip fr.1
            , handshakes := s.handshakes ++ fr.2
            , started := true }, .ok ())

/-- Embeds Python `str.endswith` on the key strings (stated over the
character lists, which the Lean kernel can evaluate). -/
def strEndsWith (s t : String) : Bool :=
  t.data.isSuffixOf s.data

/-- The redaction guard from `AgentSession.stamp`: keys ending in
`_hash` or `_id`, or literally `session_id`, pass through. -/
def isPassthroughKey (k : String) : Bool :=
  strEndsWith k "_hash" || strEndsWith k "_id" || k == "session_id"

/-- Embeds the redaction loop of `AgentSession.stamp`: build a fresh
dict where passthrough keys keep their value and every other key is
replaced by `{key}_hash -> _h(value)`. -/
def redact (payload : Dict) : Dict :=
  payload.foldl (fun acc kv =>
    if isPassthroughKey kv.1 then aset acc kv.1 kv.2
    else aset acc (kv.1 ++ "_hash") (Value.str (hashValue kv.2))) []

/-- What the redaction loop emits for one payload entry: passthrough
entries unchanged, others renamed to `{key}_hash` with the digested
value. -/
def redactEntry (kv : String × Value) : String × Value :=
  if isPassthroughKey kv.1 then kv else (kv.1 ++ "_hash", Value.str (hashValue kv.2))

/-- The shared interaction hash of a co-signed stamp:
`_h(f"{agent.agent_id}:{peer.agent_id}:{time.time()}")`. -/
def interactionHash (initiator_id responder_id : String) (now : Nat) : String :=
  hashStr (initiator_id ++ ":" ++ responder_id ++ ":" ++ Nat.repr now)

/-- Embeds `AgentSession.stamp`.  Requires `started`; resolves the
acting agent, redacts the payload, then either stamps unilaterally or,
with a peer, computes one shared interaction hash, stamps the
initiator's chain (role `initiator`, peer id attached), then the
responder's chain (`{event_type}_received`, role `responder`, the same
interaction hash, the initiator's id and the initiator's fresh
signature as `peer_signature`), returning the initiator's event.  The
responder is re-read from the updated registry, which embeds Python's
reference aliasing when `peer` names the acting agent.  Raised
exceptions return the state as mutated so far (no mutation ever
precedes a raise here). -/
def AgentSession.stampOp (s : AgentSession) (agent_name event_type : String)
    (payload : Dict) (peer : Option String) (now : Nat) :
    AgentSession × Except Err Event :=
  if !s.started then
    (s, .error (.runtimeError "Session not started. Call session.start() first."))
  else
    match aget s.agents agent_name with
    | none => (s, .error (.keyError ("Agent " ++ agent_name ++ " not in session.")))
    | some agent =>
        let safe := redact payload
        match peer with
        | some peer_name =>
            match aget s.agents peer_name with
            | none => (s, .error (.keyError ("Agent " ++ peer_name ++ " not in session.")))
            | some peer_agent =>
                let ih := interactionHash agent.agent_id peer_agent.agent_id now
                let r1 := agent.stamp event_type
                  (aset (aset safe "interaction_hash" (Value.str ih))
                    "my_role" (Value.str "initiator"))
                  s.session_id (some peer_agent.agent_id) none
                let s1 := { s with agents := aset s.agents agent_name r1.1 }
                let peer_now := match aget s1.agents peer_name with
                  | some pm => pm
                  | none => peer_agent
                let r2 := peer_now.stamp (event_type ++ "_received")
                  (aset (aset safe "interaction_hash" (Value.str ih))
                    "my_role" (Value.str "responder"))
                  s.session_id (some agent.agent_id) (some r1.2.signature)
                ({ s1 with agents := aset s1.agents peer_name r2.1 }, .ok r1.2)
        | none =>
            let r := agent.stamp event_type safe s.session_id none none
            ({ s with agents := aset s.agents agent_name r.1 }, .ok r.2)

/-- Per-agent entry of the session summary. -/
structure SummaryAgent where
  agent_id : String
  event_count : Nat
  last_hash : Option String
  deriving DecidableEq

/-- The session summary dict of `AgentSession.summary`. -/
structure Summary where
  session_id : String
  started_at : Option Nat
  agents : List (String × SummaryAgent)
  handshakes : List Handshake
  handshake_count : Nat
  total_events : Nat
  deriving DecidableEq

/-- `sum(len(a.events) for a in self._agents.values())`. -/
def totalEvents (s : AgentSession) : Nat :=
  (s.agents.map (fun p => p.2.events.length)).sum

/-- Embeds `AgentSession.summary`: a pure read of the current state. -/
def AgentSession.summary (s : AgentSession) : Summary :=
  { session_id := s.session_id
  , started_at := s.started_at
  , agents := s.agents.map (fun p =>
      (p.1, { agent_id := p.2.agent_id
            , event_count := p.2.events.length
            , last_hash := p.2.previous_hash }))
  , handshakes := s.handshakes
  , handshake_count := s.handshakes.length
  , total_events := totalEvents s }

/-- Embeds `AgentSession.end` (a Lean keyword, hence `endOp`): requires
`started`; stamps a `session_end` event (elapsed duration, total event
count) into every agent's log and returns the summary of the mutated
state.  Note: the Python method never clears or changes `started`. -/
def AgentSession.endOp (s : AgentSession) (now : Nat) : AgentSession × Except Err Summary :=
  if !s.started then
    (s, .error (.runtimeError "Session not started. Call session.start() first."))
  else
    let duration := now - (match s.started_at with | some t => t | none => 0)
    let total := totalEvents s
    let s1 := { s with agents := s.agents.map (fun p =>
      (p.1, (p.2.stamp "session_end"
        [("session_id", Value.str s.session_id),
         ("duration_seconds", Value.nat duration),
         ("total_events", Value.nat total)]
        s.session_id none none).1)) }
    (s1, .ok s1.summary)

/-- A JSON value, the target of the export serialization. -/
inductive Json where
  | str (s : String)
  | num (n : Nat)
  | null
  | arr (xs : List Json)
  | obj (fields : List (String × Json))

/-- JSON encoding of a payload value. -/
def encodeValue : Value → Json
  | .str s => .str s
  | .nat n => .num n
  | .strList xs => .arr (xs.map Json.str)

/-- JSON encoding of an event. -/
def encodeEvent (e : Event) : Json :=
  .obj [("agent_id", .str e.agent_id),
        ("payload", .obj (e.payload.map (fun p => (p.1, encodeValue p.2)))),
        ("previous_hash", .str e.previous_hash),
        ("signature", .str e.signature)]

/-- JSON encoding of an optional string (`None` becomes `null`). -/
def encodeOptStr : Option String → Json
  | none => .null
  | some s => .str s

/-- JSON encoding of a handshake record. -/
def encodeHandshake (h : Handshake) : Json :=
  .obj [("agent_a", .str h.agent_a), ("agent_b", .str h.agent_b),
        ("agent_a_id", .str h.agent_a_id), ("agent_b_id", .str h.agent_b_id),
        ("session_id", .str h.session_id),
        ("event_a_hash", .str h.event_a_hash), ("event_b_hash", .str h.event_b_hash),
        ("timestamp", .num h.timestamp)]

/-- JSON encoding of the session summary. -/
def encodeSummary (sm : Summary) : Json :=
  .obj [("session_id", .str sm.session_id),
        ("started_at", match sm.started_at with | none => .null | some t => .num t),
        ("agents", .obj (sm.agents.map (fun p =>
          (p.1, Json.obj [("agent_id", .str p.2.agent_id),
                          ("event_count", .num p.2.event_count),
                          ("last_hash", encodeOptStr p.2.last_hash)])))),
        ("handshakes", .arr (sm.handshakes.map encodeHandshake)),
        ("handshake_count", .num sm.handshake_count),
        ("total_events", .num sm.total_events)]

/-- Embeds `AgentSession.export`: requires `started`; serializes
`{session: summary(), agents: {name: {agent_id, event_count, events}}}`.
The file write (an external, assumed-correct sink) is modelled by
returning the serialized JSON value; the session state is returned
untouched. -/
def AgentSession.exportOp (s : AgentSession) : AgentSession × Except Err Json :=
  if !s.started then
    (s, .error (.runtimeError "Session not started. Call session.start() first."))
  else
    (s, .ok (.obj [("session", encodeSummary s.summary),
        ("agents", .obj (s.agents.map (fun p =>
          (p.1, Json.obj [("agent_id", .str p.2.agent_id),
                          ("event_count", .num p.2.events.length),
                          ("events", .arr (p.2.events.map encodeEvent))]))))]))

/-- Reading a field back out of an exported JSON object. -/
def jlookup : Json → String → Option Json
  | .obj fields, k => aget fields k
  | _, _ => none

/-- Reading a number back out of an exported JSON value. -/
def jnum : Json → Option Nat
  | .num n => some n
  | _ => none

/-- Re-reading `session.total_events` from an export. -/
def readTotalEvents (j : Json) : Option Nat :=
  (jlookup j "session").bind (fun sj => (jlookup sj "total_events").bind jnum)

/-- Re-reading `session.handshake_count` from an export. -/
def readHandshakeCount (j : Json) : Option Nat :=
  (jlookup j "session").bind (fun sj => (jlookup sj "handshake_count").bind jnum)

/-- Re-reading the per-agent `event_count` entries of the summary
object of an export, in order. -/
def readCounts : List (String × Json) → Option (List (String × Nat))
  | [] => some []
  | (n, aj) :: rest =>
      match (jlookup aj "event_count").bind jnum with
      | some c => (readCounts rest).map (fun t => (n, c) :: t)
      | none => none

/-- Re-reading all per-agent event counts from the summary of an
export. -/
def readAgentCounts (j : Json) : Option (List (String × Nat)) :=
  match (jlookup j "session").bind (fun sj => jlookup sj "agents") with
  | some (.obj fields) => readCounts fields
  | _ => none

/-- One API call on a session, for stating invariants over arbitrary
interleavings. -/
inductive Op where
  | startOp (now : Nat)
  | stampOp (agent_name event_type : String) (payload : Dict) (peer : Option String) (now : Nat)
  | endOp (now : Nat)

/-- The state after one API call; a raised exception leaves the state
as the call left it (Python objects keep their partial mutations). -/
def applyOp (s : AgentSession) : Op → AgentSession
  | .startOp now => (s.start now).1
  | .stampOp a et pl pr now => (s.stampOp a et pl pr now).1
  | .endOp now => (s.endOp now).1

/-- The state after a sequence of API calls. -/
def runOps (s : AgentSession) (ops : List Op) : AgentSession :=
  ops.foldl applyOp s

/-- The chain discipline holds for every agent of the session. -/
def sessionOk (s : AgentSession) : Bool :=
  s.agents.all (fun p => memberOk p.2)

/-- The ascending unordered pairs of a list: (i, j) with i < j, row by
row. -/
def ascPairs : List String → List (String × String)
  | [] => []
  | x :: rest => rest.map (fun y => (x, y)) ++ ascPairs rest

/-- The `event_type` field stored in an event's payload. -/
def eventTypeOf (e : Event) : String :=
  match aget e.payload "event_type" with
  | some (Value.str t) => t
  | _ => ""

/-- The empty session value used to name the result of a successful
construction in closed statements. -/
def defaultAgentSession : AgentSession :=
  { session_id := "", started_at := none, started := false, agents := [], handshakes := [] }

/-- Projects a successful construction to its session. -/
def mkOrDefault (r : Except Err AgentSession) : AgentSession :=
  match r with
  | .ok s => s
  | .error _ => defaultAgentSession

/-- Whether a call result is a success. -/
def exceptOk {α : Type} : Except Err α → Bool
  | .ok _ => true
  | .error _ => false

/-- A fragment of the Python object heap, for stating what the
`AgentMember.events` accessor (`self._events.copy()`) does under
Python reference semantics: list objects and dict objects live in the
heap and are addressed by index; a list holds references to dicts. -/
structure PyState where
  lists : List (List Nat)
  dicts : List Dict
  deriving DecidableEq

/-- Dereference a list object. -/
def listGet (st : PyState) (r : Nat) : List Nat :=
  st.lists.getD r []

/-- Dereference a dict (event record) object. -/
def dictGet (st : PyState) (r : Nat) : Dict :=
  st.dicts.getD r []

/-- Embeds the `events` property: `self._events.copy()` allocates a new
list object holding the same event-record references (a shallow copy)
and returns its reference. -/
def eventsAccessor (st : PyState) (log_ref : Nat) : PyState × Nat :=
  ({ st with lists := st.lists ++ [listGet st log_ref] }, st.lists.length)

/-- The agent's stored event history: the event records its log refers
to, in order. -/
def storedHistory (st : PyState) (log_ref : Nat) : List Dict :=
  (listGet st log_ref).map (dictGet st)

/-- A caller-side list-level mutation: `view.append(elem)` on the list
object at `r`. -/
def pyListAppend (st : PyState) (r : Nat) (elem_ref : Nat) : PyState :=
  { st with lists := st.lists.set r (listGet st r ++ [elem_ref]) }

/-- A caller-side record-level mutation: `view[i][k] = v` writes through
the shared event-record reference. -/
def pyDictSet (st : PyState) (r : Nat) (k : String) (v : Value) : PyState :=
  { st with dicts := st.dicts.set r (aset (dictGet st r) k v) }

/-- A concrete two-agent session, freshly constructed. -/
def wFresh : AgentSession :=
  mkOrDefault (mkAgentSession [("a", "fa"), ("b", "fb")] "uuidhex")

/-- The concrete two-agent session after a successful `start`. -/
def wStarted : AgentSession :=
  (wFresh.start 5).1

/-- A concrete three-agent session, freshly constructed. -/
def wThree : AgentSession :=
  mkOrDefault (mkAgentSession [("a", "fa"), ("b", "fb"), ("c", "fc")] "uuidhex")

/-- Reads one payload field of the last event of a named agent's log,
for stating concrete counterexamples. -/
def lastEventPayloadField (s : AgentSession) (name key : String) : Option Value :=
  match aget s.agents name with
  | some m =>
      match m.events.getLast? with
      | some e => aget e.payload key
      | none => none
  | none => none

/-- The registered member named "a" of the concrete started session. -/
def wAgentA : AgentMember :=
  match aget wStarted.agents "a" with
  | some m => m
  | none => AgentMember.init "a" "fa"

/-- The registered member named "b" of the concrete started session. -/
def wAgentB : AgentMember :=
  match aget wStarted.agents "b" with
  | some m => m
  | none => AgentMember.init "b" "fb"

theorem toHexFixed_length (w : Nat) : ∀ n : Nat, (toHexFixed w n).length = w := by
  induction w with
  | zero => intro n; rfl
  | succ w ih =>
      intro n
      simp [toHexFixed, String.length_append, ih]

theorem sha256hexModel_ne_empty (s : String) : sha256hexModel s ≠ "" := by
  intro h
  have hl : (sha256hexModel s).length = 16 := toHexFixed_length 16 (strHashNat s)
  rw [h] at hl
  simp at hl

theorem aget_aset_self {α : Type} (d : List (String × α)) (k : String) (v : α) :
    aget (aset d k v) k = some v := by
  induction d with
  | nil => simp [aset, aget]
  | cons p rest ih =>
      by_cases h : p.1 = k
      · simp [aset, h, aget]
      · simp [aset, h, aget, ih]

theorem aget_aset_ne {α : Type} (d : List (String × α)) (k k' : String) (v : α)
    (h : k' ≠ k) : aget (aset d k v) k' = aget d k' := by
  have hk : k ≠ k' := Ne.symm h
  induction d with
  | nil => simp [aset, aget, hk]
  | cons p rest ih =>
      obtain ⟨pk, pv⟩ := p
      by_cases hp : pk = k
      · subst hp
        simp [aset, aget, hk]
      · simp [aset, aget, hp, ih]

theorem chainFrom_append (l : List Event) : ∀ (g : String) (e : Event),
    chainFrom g (l ++ [e]) = (chainFrom g l && (e.previous_hash == lastLink g l)) := by
  induction l with
  | nil => intro g e; simp [chainFrom, lastLink]
  | cons x rest ih =>
      intro g e
      have hlast : lastLink g (x :: rest) = lastLink (computeEventHash x) rest := by
        cases rest with
        | nil => simp [lastLink]
        | cons y t =>
            simp only [lastLink, List.getLast?_cons_cons]
            cases hgl : (y :: t).getLast? with
            | none => simp at hgl
            | some z => rfl
      simp only [List.cons_append, chainFrom, List.append_eq, ih, hlast, Bool.and_assoc]

theorem pyOrGenesis_hash (s : String) :
    pyOrGenesis (some (sha256hexModel s)) = sha256hexModel s := by
  simp [pyOrGenesis, sha256hexModel_ne_empty s]

/-- `AgentMember.stamp` preserves the chain discipline: the new event
links to the old chain head and the head advances to its digest. -/
theorem stamp_preserves_memberOk (m : AgentMember) (event_type : String) (payload : Dict)
    (session_id : String) (peer_id peer_signature : Option String)
    (h : memberOk m = true) :
    memberOk (m.stamp event_type payload session_id peer_id peer_signature).1 = true := by
  unfold memberOk at h ⊢
  simp only [Bool.and_eq_true, beq_iff_eq] at h ⊢
  obtain ⟨hchain, hhead⟩ := h
  unfold AgentMember.stamp
  simp only [AgentMember.chainHead]
  constructor
  · rw [chainFrom_append]
    simp only [Bool.and_eq_true, beq_iff_eq]
    exact ⟨hchain, hhead⟩
  · rw [lastLink, List.getLast?_append]
    simp [computeEventHash, pyOrGenesis_hash]

theorem aget_none_of_not_mem {α : Type} (d : List (String × α)) (k : String)
    (h : k ∉ d.map Prod.fst) : aget d k = none := by
  induction d with
  | nil => rfl
  | cons p rest ih =>
      simp only [List.map_cons, List.mem_cons, not_or] at h
      obtain ⟨pk, pv⟩ := p
      simp only [aget]
      rw [if_neg (fun hh => h.1 hh.symm)]
      exact ih h.2

theorem aset_append_of_none {α : Type} (d : List (String × α)) (k : String) (v : α)
    (h : aget d k = none) : aset d k v = d ++ [(k, v)] := by
  induction d with
  | nil => rfl
  | cons p rest ih =>
      obtain ⟨pk, pv⟩ := p
      simp only [aget] at h
      by_cases hp : pk = k
      · rw [if_pos hp] at h
        exact absurd h (by simp)
      · rw [if_neg hp] at h
        simp [aset, hp, ih h]

theorem aget_of_mem_nodup {α : Type} (d : List (String × α)) (k : String) (v : α)
    (hnd : (d.map Prod.fst).Nodup) (hm : (k, v) ∈ d) : aget d k = some v := by
  induction d with
  | nil => exact absurd hm (by simp)
  | cons p rest ih =>
      obtain ⟨pk, pv⟩ := p
      simp only [List.map_cons, List.nodup_cons] at hnd
      rcases List.mem_cons.1 hm with hh | ht
      · obtain ⟨hk, hv⟩ := Prod.mk.inj hh
        subst hk
        subst hv
        simp [aget]
      · have hk : pk ≠ k := by
          intro he
          exact hnd.1 (he ▸ (List.mem_map.2 ⟨(k, v), ht, rfl⟩))
        simp only [aget, if_neg hk]
        exact ih hnd.2 ht

theorem aset_all {α : Type} (Q : String × α → Bool) (d : List (String × α)) (k : String) (v : α)
    (hd : d.all Q = true) (hv : Q (k, v) = true) : (aset d k v).all Q = true := by
  induction d with
  | nil => simpa [aset]
  | cons p rest ih =>
      obtain ⟨pk, pv⟩ := p
      simp only [List.all_cons, Bool.and_eq_true] at hd
      by_cases hp : pk = k
      · simp [aset, hp, hv, hd.2, List.all_cons]
      · simp [aset, hp, List.all_cons, hd.1, ih hd.2]

theorem all_aget {α : Type} (Q : String × α → Bool) (d : List (String × α)) (k : String) (v : α)
    (hd : d.all Q = true) (hg : aget d k = some v) : Q (k, v) = true := by
  induction d with
  | nil => exact absurd hg (by simp [aget])
  | cons p rest ih =>
      obtain ⟨pk, pv⟩ := p
      simp only [List.all_cons, Bool.and_eq_true] at hd
      simp only [aget] at hg
      by_cases hp : pk = k
      · rw [if_pos hp] at hg
        have hv : pv = v := by simpa using hg
        exact hp ▸ hv ▸ hd.1
      · rw [if_neg hp] at hg
        exact ih hd.2 hg

/-- C10: construction errors exactly when fewer than 2 agent
definitions are given; duplicate names are not rejected — a later entry
overwrites an earlier one in the registry, so a 2-entry list with one
repeated name constructs a session with a single registered agent whose
`start()` performs zero handshakes. -/
theorem claim10_constructor_validation (defs : List (String × String))
    (uuid_hex n f1 f2 : String) (now : Nat) :
    (2 ≤ defs.length → ∃ s, mkAgentSession defs uuid_hex = .ok s) ∧
    (defs.length < 2 → ∃ msg, mkAgentSession defs uuid_hex = .error (.valueError msg)) ∧
    (∀ s, mkAgentSession [(n, f1), (n, f2)] uuid_hex = .ok s →
      s.agents = [(n, AgentMember.init n f2)] ∧
      (s.start now).2 = .ok () ∧
      ((s.start now).1).handshakes = []) := by
  refine ⟨?_, ?_, ?_⟩
  · intro h
    unfold mkAgentSession
    rw [if_neg (by omega)]
    exact ⟨_, rfl⟩
  · intro h
    unfold mkAgentSession
    rw [if_pos h]
    exact ⟨_, rfl⟩
  · intro s hs
    unfold mkAgentSession at hs
    rw [if_neg (by simp)] at hs
    have hs2 := Except.ok.inj hs
    subst hs2
    refine ⟨by simp [aset], ?_, ?_⟩
    · simp [AgentSession.start]
    · simp [AgentSession.start, fanout, fanoutAux, fanoutStep, aset]

/-- C7: on a started session, a `stamp` call naming an unknown agent or
an unknown peer fails with a lookup error and performs no mutation: the
returned state is exactly the input state. -/
theorem claim7_stamp_unknown_lookup (s : AgentSession) (agent_name event_type : String)
    (payload : Dict) (peer : Option String) (now : Nat)
    (hstarted : s.started = true)
    (hunknown : aget s.agents agent_name = none ∨
      ∃ p, peer = some p ∧ aget s.agents p = none) :
    (s.stampOp agent_name event_type payload peer now).1 = s ∧
    ∃ msg, (s.stampOp agent_name event_type payload peer now).2 = .error (.keyError msg) := by
  rcases hunknown with h1 | ⟨p, hp, h2⟩
  · simp [AgentSession.stampOp, hstarted, h1]
  · subst hp
    cases hg : aget s.agents agent_name with
    | none => simp [AgentSession.stampOp, hstarted, hg]
    | some agent => simp [AgentSession.stampOp, hstarted, hg, h2]

/-- C2 (amended): `start()` is rejected with a state error when already
started and leaves the state untouched; `stamp()`, `end()` and
`export()` are rejected before `start()`; but `end()` never leaves the
`started` state — the code has no terminal `ended` state, so after
`end()` further `stamp`/`end`/`export` calls are still accepted. -/
theorem claim2_lifecycle_amended (s : AgentSession) (agent_name event_type : String)
    (payload : Dict) (peer : Option String) (now now2 : Nat) :
    (s.started = true → ∃ msg, s.start now = (s, .error (.runtimeError msg))) ∧
    (s.started = false →
      (∃ msg, s.stampOp agent_name event_type payload peer now
        = (s, .error (.runtimeError msg))) ∧
      (∃ msg, s.endOp now = (s, .error (.runtimeError msg))) ∧
      (∃ msg, s.exportOp = (s, .error (.runtimeError msg)))) ∧
    ((s.endOp now).1.started = s.started) ∧
    (s.started = true → ∃ sm, ((s.endOp now).1.endOp now2).2 = .ok sm) := by
  refine ⟨?_, ?_, ?_, ?_⟩
  · intro h
    unfold AgentSession.start
    rw [if_pos h]
    exact ⟨_, rfl⟩
  · intro h
    refine ⟨?_, ?_, ?_⟩
    · unfold AgentSession.stampOp
      rw [h]
      exact ⟨_, rfl⟩
    · unfold AgentSession.endOp
      rw [h]
      exact ⟨_, rfl⟩
    · unfold AgentSession.exportOp
      rw [h]
      exact ⟨_, rfl⟩
  · unfold AgentSession.endOp
    cases h : s.started with
    | false => simp [h]
    | true => simp [h]
  · intro h
    unfold AgentSession.endOp
    rw [h]
    simp

/-- C2 counterexample: the session is still accepting `stamp`, `end`
and `export` calls after a successful `end()` — there is no terminal
`ended` state, refuting the claim as stated. -/
theorem claim2_lifecycle_counterexample :
    wStarted.started = true ∧
    exceptOk (wStarted.endOp 9).2 = true ∧
    exceptOk ((wStarted.endOp 9).1.stampOp "a" "note" [] none 11).2 = true ∧
    exceptOk ((wStarted.endOp 9).1.endOp 12).2 = true ∧
    exceptOk ((wStarted.endOp 9).1.exportOp).2 = true := by
  decide

/-- C2 witness: the amended lifecycle behaviour at concrete sessions. -/
theorem claim2_lifecycle_amended_witness :
    (∃ msg, wStarted.start 7 = (wStarted, .error (.runtimeError msg))) ∧
    (∃ msg, wFresh.endOp 7 = (wFresh, .error (.runtimeError msg))) ∧
    ((wStarted.endOp 9).1.started = wStarted.started) ∧
    (∃ sm, ((wStarted.endOp 9).1.endOp 10).2 = .ok sm) :=
  ⟨(claim2_lifecycle_amended wStarted "a" "x" [] none 7 8).1 (by decide),
   ((claim2_lifecycle_amended wFresh "a" "x" [] none 7 8).2.1 (by decide)).2.1,
   (claim2_lifecycle_amended wStarted "a" "x" [] none 9 10).2.2.1,
   (claim2_lifecycle_amended wStarted "a" "x" [] none 9 10).2.2.2 (by decide)⟩

/-- C7 witness: a stamp naming the unknown peer "zz" on a concrete
started session errors and leaves the state unchanged. -/
theorem claim7_stamp_unknown_lookup_witness :
    wStarted.started = true ∧
    (wStarted.stampOp "a" "advice" [] (some "zz") 7).1 = wStarted ∧
    ∃ msg, (wStarted.stampOp "a" "advice" [] (some "zz") 7).2 = .error (.keyError msg) :=
  ⟨by decide,
   (claim7_stamp_unknown_lookup wStarted "a" "advice" [] (some "zz") 7 (by decide)
     (Or.inr ⟨"zz", rfl, by decide⟩)).1,
   (claim7_stamp_unknown_lookup wStarted "a" "advice" [] (some "zz") 7 (by decide)
     (Or.inr ⟨"zz", rfl, by decide⟩)).2⟩

/-- C10 witness: concrete instances of the three construction rules. -/
theorem claim10_constructor_validation_witness :
    (∃ s, mkAgentSession [("a", "fa"), ("b", "fb")] "uuidhex" = .ok s) ∧
    (∃ msg, mkAgentSession [("a", "fa")] "uuidhex" = .error (.valueError msg)) ∧
    (∀ s, mkAgentSession [("dup", "f1"), ("dup", "f2")] "uuidhex" = .ok s →
      s.agents = [("dup", AgentMember.init "dup" "f2")] ∧
      (s.start 5).2 = .ok () ∧
      ((s.start 5).1).handshakes = []) :=
  ⟨(claim10_constructor_validation [("a", "fa"), ("b", "fb")] "uuidhex" "x" "y" "z" 5).1
     (by decide),
   (claim10_constructor_validation [("a", "fa")] "uuidhex" "x" "y" "z" 5).2.1 (by decide),
   (claim10_constructor_validation [] "uuidhex" "dup" "f1" "f2" 5).2.2⟩

theorem sig_prefix_ne_empty (z : String) : "sig_" ++ z ≠ "" := by
  intro h
  have hl := congrArg String.length h
  rw [String.length_append] at hl
  have h4 : "sig_".length = 4 := rfl
  have h0 : "".length = 0 := rfl
  omega

theorem stamp_signature_ne_empty (m : AgentMember) (et : String) (pl : Dict)
    (sid : String) (pid psig : Option String) :
    (m.stamp et pl sid pid psig).2.signature ≠ "" :=
  sig_prefix_ne_empty _

theorem stamp_fst_events (m : AgentMember) (et : String) (pl : Dict) (sid : String)
    (pid psig : Option String) :
    (m.stamp et pl sid pid psig).1.events = m.events ++ [(m.stamp et pl sid pid psig).2] :=
  rfl

theorem stamp_snd_previous_hash (m : AgentMember) (et : String) (pl : Dict) (sid : String)
    (pid psig : Option String) :
    (m.stamp et pl sid pid psig).2.previous_hash = m.chainHead :=
  rfl

theorem aget_stamp_payload_full0 (m : AgentMember) (et : String) (pl : Dict) (sid : String)
    (pid psig : Option String) (k : String)
    (h4 : k ≠ "peer_agent_id") (h5 : k ≠ "peer_signature") :
    aget (m.stamp et pl sid pid psig).2.payload k =
      aget (aset (aset (aset pl "event_type" (Value.str et)) "session_id" (Value.str sid))
        "aiss_profile" (Value.str "AISS-1")) k := by
  cases pid with
  | none =>
      cases psig with
      | none => rfl
      | some g =>
          simp only [AgentMember.stamp, stampEvent]
          by_cases hg : g = ""
          · rw [if_pos hg]
          · rw [if_neg hg, aget_aset_ne _ _ _ _ h5]
  | some p =>
      cases psig with
      | none =>
          simp only [AgentMember.stamp, stampEvent]
          by_cases hp : p = ""
          · rw [if_pos hp]
          · rw [if_neg hp, aget_aset_ne _ _ _ _ h4]
      | some g =>
          simp only [AgentMember.stamp, stampEvent]
          by_cases hp : p = ""
          · rw [if_pos hp]
            by_cases hg : g = ""
            · rw [if_pos hg]
            · rw [if_neg hg, aget_aset_ne _ _ _ _ h5]
          · rw [if_neg hp]
            by_cases hg : g = ""
            · rw [if_pos hg, aget_aset_ne _ _ _ _ h4]
            · rw [if_neg hg, aget_aset_ne _ _ _ _ h5, aget_aset_ne _ _ _ _ h4]

theorem aget_stamp_payload (m : AgentMember) (et : String) (pl : Dict) (sid : String)
    (pid psig : Option String) (k : String)
    (h1 : k ≠ "event_type") (h2 : k ≠ "session_id") (h3 : k ≠ "aiss_profile")
    (h4 : k ≠ "peer_agent_id") (h5 : k ≠ "peer_signature") :
    aget (m.stamp et pl sid pid psig).2.payload k = aget pl k := by
  rw [aget_stamp_payload_full0 m et pl sid pid psig k h4 h5,
    aget_aset_ne _ _ _ _ h3, aget_aset_ne _ _ _ _ h2, aget_aset_ne _ _ _ _ h1]

theorem stamp_payload_event_type (m : AgentMember) (et : String) (pl : Dict) (sid : String)
    (pid psig : Option String) :
    aget (m.stamp et pl sid pid psig).2.payload "event_type" = some (Value.str et) := by
  rw [aget_stamp_payload_full0 m et pl sid pid psig _ (by decide) (by decide),
    aget_aset_ne _ _ _ _ (by decide), aget_aset_ne _ _ _ _ (by decide), aget_aset_self]

theorem stamp_payload_session_id (m : AgentMember) (et : String) (pl : Dict) (sid : String)
    (pid psig : Option String) :
    aget (m.stamp et pl sid pid psig).2.payload "session_id" = some (Value.str sid) := by
  rw [aget_stamp_payload_full0 m et pl sid pid psig _ (by decide) (by decide),
    aget_aset_ne _ _ _ _ (by decide), aget_aset_self]

theorem stamp_eventTypeOf (m : AgentMember) (et : String) (pl : Dict) (sid : String)
    (pid psig : Option String) :
    eventTypeOf (m.stamp et pl sid pid psig).2 = et := by
  unfold eventTypeOf
  rw [stamp_payload_event_type]

theorem stamp_payload_peer_fields (m : AgentMember) (et : String) (pl : Dict) (sid : String)
    (p g : String) (hp : p ≠ "") (hg : g ≠ "") :
    aget (m.stamp et pl sid (some p) (some g)).2.payload "peer_agent_id"
      = some (Value.str p) ∧
    aget (m.stamp et pl sid (some p) (some g)).2.payload "peer_signature"
      = some (Value.str g) := by
  simp only [AgentMember.stamp, stampEvent]
  rw [if_neg hp, if_neg hg]
  constructor
  · rw [aget_aset_ne _ _ _ _ (by decide), aget_aset_self]
  · rw [aget_aset_self]

theorem stamp_payload_interaction_hash (m : AgentMember) (et : String) (safe : Dict)
    (sid ihv role : String) (pid psig : Option String) :
    aget (m.stamp et (aset (aset safe "interaction_hash" (Value.str ihv)) "my_role"
      (Value.str role)) sid pid psig).2.payload "interaction_hash" = some (Value.str ihv) := by
  rw [aget_stamp_payload _ _ _ _ _ _ _ (by decide) (by decide) (by decide) (by decide) (by decide),
    aget_aset_ne _ _ _ _ (by decide), aget_aset_self]

theorem stamp_payload_my_role (m : AgentMember) (et : String) (safe : Dict)
    (sid ihv role : String) (pid psig : Option String) :
    aget (m.stamp et (aset (aset safe "interaction_hash" (Value.str ihv)) "my_role"
      (Value.str role)) sid pid psig).2.payload "my_role" = some (Value.str role) := by
  rw [aget_stamp_payload _ _ _ _ _ _ _ (by decide) (by decide) (by decide) (by decide) (by decide),
    aget_aset_self]

theorem stampOp_cosigned_ne (s : AgentSession) (agent_name event_type : String)
    (payload : Dict) (peer_name : String) (now : Nat) (agent peer_agent : AgentMember)
    (hstarted : s.started = true)
    (hA : aget s.agents agent_name = some agent)
    (hP : aget s.agents peer_name = some peer_agent)
    (hne : peer_name ≠ agent_name) :
    (s.stampOp agent_name event_type payload (some peer_name) now).1.agents =
      aset (aset s.agents agent_name
        (agent.stamp event_type
          (aset (aset (redact payload) "interaction_hash"
            (Value.str (interactionHash agent.agent_id peer_agent.agent_id now)))
            "my_role" (Value.str "initiator"))
          s.session_id (some peer_agent.agent_id) none).1)
        peer_name
        (peer_agent.stamp (event_type ++ "_received")
          (aset (aset (redact payload) "interaction_hash"
            (Value.str (interactionHash agent.agent_id peer_agent.agent_id now)))
            "my_role" (Value.str "responder"))
          s.session_id (some agent.agent_id)
          (some (agent.stamp event_type
            (aset (aset (redact payload) "interaction_hash"
              (Value.str (interactionHash agent.agent_id peer_agent.agent_id now)))
              "my_role" (Value.str "initiator"))
            s.session_id (some peer_agent.agent_id) none).2.signature)).1 ∧
    (s.stampOp agent_name event_type payload (some peer_name) now).2 =
      .ok (agent.stamp event_type
        (aset (aset (redact payload) "interaction_hash"
          (Value.str (interactionHash agent.agent_id peer_agent.agent_id now)))
          "my_role" (Value.str "initiator"))
        s.session_id (some peer_agent.agent_id) none).2 := by
  have hpn : aget (aset s.agents agent_name
      (agent.stamp event_type
        (aset (aset (redact payload) "interaction_hash"
          (Value.str (interactionHash agent.agent_id peer_agent.agent_id now)))
          "my_role" (Value.str "initiator"))
        s.session_id (some peer_agent.agent_id) none).1) peer_name = some peer_agent := by
    rw [aget_aset_ne _ _ _ _ hne, hP]
  constructor
  · simp only [AgentSession.stampOp, hstarted, hA, hP, hpn, Bool.not_true]
    rfl
  · simp only [AgentSession.stampOp, hstarted, hA, hP, hpn, Bool.not_true]
    rfl

theorem stampOp_cosigned_eq (s : AgentSession) (agent_name event_type : String)
    (payload : Dict) (now : Nat) (agent : AgentMember)
    (hstarted : s.started = true)
    (hA : aget s.agents agent_name = some agent) :
    (s.stampOp agent_name event_type payload (some agent_name) now).1.agents =
      aset (aset s.agents agent_name
        (agent.stamp event_type
          (aset (aset (redact payload) "interaction_hash"
            (Value.str (interactionHash agent.agent_id agent.agent_id now)))
            "my_role" (Value.str "initiator"))
          s.session_id (some agent.agent_id) none).1)
        agent_name
        ((agent.stamp event_type
          (aset (aset (redact payload) "interaction_hash"
            (Value.str (interactionHash agent.agent_id agent.agent_id now)))
            "my_role" (Value.str "initiator"))
          s.session_id (some agent.agent_id) none).1.stamp (event_type ++ "_received")
          (aset (aset (redact payload) "interaction_hash"
            (Value.str (interactionHash agent.agent_id agent.agent_id now)))
            "my_role" (Value.str "responder"))
          s.session_id (some agent.agent_id)
          (some (agent.stamp event_type
            (aset (aset (redact payload) "interaction_hash"
              (Value.str (interactionHash agent.agent_id agent.agent_id now)))
              "my_role" (Value.str "initiator"))
            s.session_id (some agent.agent_id) none).2.signature)).1 ∧
    (s.stampOp agent_name event_type payload (some agent_name) now).2 =
      .ok (agent.stamp event_type
        (aset (aset (redact payload) "interaction_hash"
          (Value.str (interactionHash agent.agent_id agent.agent_id now)))
          "my_role" (Value.str "initiator"))
        s.session_id (some agent.agent_id) none).2 := by
  have hpn : aget (aset s.agents agent_name
      (agent.stamp event_type
        (aset (aset (redact payload) "interaction_hash"
          (Value.str (interactionHash agent.agent_id agent.agent_id now)))
          "my_role" (Value.str "initiator"))
        s.session_id (some agent.agent_id) none).1) agent_name =
      some (agent.stamp event_type
        (aset (aset (redact payload) "interaction_hash"
          (Value.str (interactionHash agent.agent_id agent.agent_id now)))
          "my_role" (Value.str "initiator"))
        s.session_id (some agent.agent_id) none).1 :=
    aget_aset_self _ _ _
  constructor
  · simp only [AgentSession.stampOp, hstarted, hA, hpn, Bool.not_true]
    rfl
  · simp only [AgentSession.stampOp, hstarted, hA, hpn, Bool.not_true]
    rfl

/-- C4: a co-signed stamp on a started session computes exactly one
interaction hash — the digest of initiator id, responder id and
timestamp — and the `interaction_hash` value stored in the initiator's
new event is byte-for-byte the one stored in the responder's new
event. -/
theorem claim4_interaction_hash_shared (s : AgentSession) (agent_name event_type : String)
    (payload : Dict) (peer_name : String) (now : Nat) (agent peer_agent : AgentMember)
    (hstarted : s.started = true)
    (hA : aget s.agents agent_name = some agent)
    (hP : aget s.agents peer_name = some peer_agent) :
    ∃ mA eA mP eP,
      aget (s.stampOp agent_name event_type payload (some peer_name) now).1.agents agent_name
        = some mA ∧
      mA.events.getLast? = some eA ∧
      aget (s.stampOp agent_name event_type payload (some peer_name) now).1.agents peer_name
        = some mP ∧
      mP.events.getLast? = some eP ∧
      aget eA.payload "interaction_hash"
        = some (Value.str (interactionHash agent.agent_id peer_agent.agent_id now)) ∧
      aget eP.payload "interaction_hash"
        = some (Value.str (interactionHash agent.agent_id peer_agent.agent_id now)) := by
  by_cases hne : peer_name = agent_name
  · subst hne
    rw [hP] at hA
    obtain rfl := Option.some.inj hA
    obtain ⟨hag, hok⟩ := stampOp_cosigned_eq s peer_name event_type payload now peer_agent
      hstarted hP
    rw [hag]
    refine ⟨?w1, ?w2, ?w3, ?w4, ?e1, ?e2, ?e3, ?e4, ?e5, ?e6⟩
    case e1 => exact aget_aset_self _ _ _
    case e2 =>
      rw [stamp_fst_events]
      exact List.getLast?_concat _
    case e3 => exact aget_aset_self _ _ _
    case e4 =>
      rw [stamp_fst_events]
      exact List.getLast?_concat _
    case e5 => exact stamp_payload_interaction_hash _ _ _ _ _ _ _ _
    case e6 => exact stamp_payload_interaction_hash _ _ _ _ _ _ _ _
  · obtain ⟨hag, hok⟩ := stampOp_cosigned_ne s agent_name event_type payload peer_name now
      agent peer_agent hstarted hA hP hne
    rw [hag]
    refine ⟨?v1, ?v2, ?v3, ?v4, ?f1, ?f2, ?f3, ?f4, ?f5, ?f6⟩
    case f1 =>
      rw [aget_aset_ne _ _ _ _ (Ne.symm hne)]
      exact aget_aset_self _ _ _
    case f2 =>
      rw [stamp_fst_events]
      exact List.getLast?_concat _
    case f3 => exact aget_aset_self _ _ _
    case f4 =>
      rw [stamp_fst_events]
      exact List.getLast?_concat _
    case f5 => exact stamp_payload_interaction_hash _ _ _ _ _ _ _ _
    case f6 => exact stamp_payload_interaction_hash _ _ _ _ _ _ _ _

/-- C5: a co-signed stamp's responder event has event type
`{event_type}_received`, role `responder`, the initiator's agent id as
`peer_agent_id`, and the initiator's fresh signature embedded verbatim
as `peer_signature`; the call returns the initiator's event. -/
theorem claim5_cosigned_responder (s : AgentSession) (agent_name event_type : String)
    (payload : Dict) (peer_name : String) (now : Nat) (agent peer_agent : AgentMember)
    (hstarted : s.started = true)
    (hne : peer_name ≠ agent_name)
    (hA : aget s.agents agent_name = some agent)
    (hP : aget s.agents peer_name = some peer_agent)
    (hid : agent.agent_id ≠ "") :
    ∃ mA eA mP eP,
      aget (s.stampOp agent_name event_type payload (some peer_name) now).1.agents agent_name
        = some mA ∧
      mA.events.getLast? = some eA ∧
      aget (s.stampOp agent_name event_type payload (some peer_name) now).1.agents peer_name
        = some mP ∧
      mP.events.getLast? = some eP ∧
      (s.stampOp agent_name event_type payload (some peer_name) now).2 = .ok eA ∧
      eventTypeOf eP = event_type ++ "_received" ∧
      aget eP.payload "my_role" = some (Value.str "responder") ∧
      aget eP.payload "peer_agent_id" = some (Value.str agent.agent_id) ∧
      aget eP.payload "peer_signature" = some (Value.str eA.signature) := by
  obtain ⟨hag, hok⟩ := stampOp_cosigned_ne s agent_name event_type payload peer_name now
    agent peer_agent hstarted hA hP hne
  rw [hag]
  refine ⟨?u1, ?u2, ?u3, ?u4, ?g1, ?g2, ?g3, ?g4, ?g5, ?g6, ?g7, ?g8, ?g9⟩
  case g1 =>
    rw [aget_aset_ne _ _ _ _ (Ne.symm hne)]
    exact aget_aset_self _ _ _
  case g2 =>
    rw [stamp_fst_events]
    exact List.getLast?_concat _
  case g3 => exact aget_aset_self _ _ _
  case g4 =>
    rw [stamp_fst_events]
    exact List.getLast?_concat _
  case g5 => exact hok
  case g6 => exact stamp_eventTypeOf _ _ _ _ _ _
  case g7 => exact stamp_payload_my_role _ _ _ _ _ _ _ _
  case g8 =>
    exact (stamp_payload_peer_fields peer_agent (event_type ++ "_received") _ s.session_id
      agent.agent_id _ hid (stamp_signature_ne_empty agent event_type _ s.session_id _ _)).1
  case g9 =>
    exact (stamp_payload_peer_fields peer_agent (event_type ++ "_received") _ s.session_id
      agent.agent_id _ hid (stamp_signature_ne_empty agent event_type _ s.session_id _ _)).2

/-- C4 witness: a concrete co-signed stamp between the two agents of
the started session shares one interaction hash across both logs. -/
theorem claim4_interaction_hash_shared_witness :
    wStarted.started = true ∧
    aget wStarted.agents "a" = some wAgentA ∧
    aget wStarted.agents "b" = some wAgentB ∧
    (∃ mA eA mP eP,
      aget (wStarted.stampOp "a" "advice" [("x", Value.nat 1)] (some "b") 7).1.agents "a"
        = some mA ∧
      mA.events.getLast? = some eA ∧
      aget (wStarted.stampOp "a" "advice" [("x", Value.nat 1)] (some "b") 7).1.agents "b"
        = some mP ∧
      mP.events.getLast? = some eP ∧
      aget eA.payload "interaction_hash"
        = some (Value.str (interactionHash wAgentA.agent_id wAgentB.agent_id 7)) ∧
      aget eP.payload "interaction_hash"
        = some (Value.str (interactionHash wAgentA.agent_id wAgentB.agent_id 7))) :=
  ⟨by decide, by decide, by decide,
   claim4_interaction_hash_shared wStarted "a" "advice" [("x", Value.nat 1)] "b" 7
     wAgentA wAgentB (by decide) (by decide) (by decide)⟩

/-- C5 witness: the responder-side event of a concrete co-signed stamp
carries the received type, role, peer id and the initiator's
signature. -/
theorem claim5_cosigned_responder_witness :
    wStarted.started = true ∧
    aget wStarted.agents "a" = some wAgentA ∧
    aget wStarted.agents "b" = some wAgentB ∧
    wAgentA.agent_id ≠ "" ∧
    (∃ mA eA mP eP,
      aget (wStarted.stampOp "a" "advice" [("x", Value.nat 1)] (some "b") 7).1.agents "a"
        = some mA ∧
      mA.events.getLast? = some eA ∧
      aget (wStarted.stampOp "a" "advice" [("x", Value.nat 1)] (some "b") 7).1.agents "b"
        = some mP ∧
      mP.events.getLast? = some eP ∧
      (wStarted.stampOp "a" "advice" [("x", Value.nat 1)] (some "b") 7).2 = .ok eA ∧
      eventTypeOf eP = "advice" ++ "_received" ∧
      aget eP.payload "my_role" = some (Value.str "responder") ∧
      aget eP.payload "peer_agent_id" = some (Value.str wAgentA.agent_id) ∧
      aget eP.payload "peer_signature" = some (Value.str eA.signature)) :=
  ⟨by decide, by decide, by decide, by decide,
   claim5_cosigned_responder wStarted "a" "advice" [("x", Value.nat 1)] "b" 7
     wAgentA wAgentB (by decide) (by decide) (by decide) (by decide) (by decide)⟩

theorem strEndsWith_append (x t : String) : strEndsWith (x ++ t) t = true := by
  unfold strEndsWith
  rw [String.data_append, List.isSuffixOf_iff_suffix]
  exact List.suffix_append x.data t.data

theorem ne_append_of_not_endsWith (k x t : String) (h : strEndsWith k t = false) :
    k ≠ x ++ t := by
  intro he
  rw [he, strEndsWith_append x t] at h
  exact Bool.noConfusion h

theorem string_append_right_cancel (a b t : String) (h : a ++ t = b ++ t) : a = b := by
  have hd := congrArg String.data h
  rw [String.data_append, String.data_append] at hd
  have hab := List.append_cancel_right hd
  cases a
  cases b
  simp_all

theorem endsWith_hash_passthrough (k : String) (h : strEndsWith k "_hash" = true) :
    isPassthroughKey k = true := by
  unfold isPassthroughKey
  rw [h]
  rfl

theorem aget_append {α : Type} (a b : List (String × α)) (k : String) :
    aget (a ++ b) k = match aget a k with | some v => some v | none => aget b k := by
  induction a with
  | nil => simp [aget]
  | cons p rest ih =>
      obtain ⟨pk, pv⟩ := p
      by_cases hp : pk = k
      · simp [aget, hp]
      · simp [aget, hp, ih]

theorem aget_singleton_ne {α : Type} (p : String × α) (k : String) (h : p.1 ≠ k) :
    aget [p] k = none := by
  obtain ⟨pk, pv⟩ := p
  simp only [aget]
  rw [if_neg h]

theorem redact_foldl_append (l : List (String × Value)) :
    ∀ acc : Dict,
    (((l.map redactEntry).map Prod.fst).Nodup) →
    (∀ q ∈ l.map redactEntry, aget acc q.1 = none) →
    List.foldl (fun acc kv =>
      if isPassthroughKey kv.1 then aset acc kv.1 kv.2
      else aset acc (kv.1 ++ "_hash") (Value.str (hashValue kv.2))) acc l
    = acc ++ l.map redactEntry := by
  induction l with
  | nil =>
      intro acc h1 h2
      simp
  | cons kv rest ih =>
      intro acc hnd hdisj
      simp only [List.map_cons, List.nodup_cons] at hnd
      have hhead : aget acc (redactEntry kv).1 = none :=
        hdisj (redactEntry kv) (by simp)
      have hstep : (if isPassthroughKey kv.1 then aset acc kv.1 kv.2
          else aset acc (kv.1 ++ "_hash") (Value.str (hashValue kv.2)))
          = acc ++ [redactEntry kv] := by
        by_cases hp : isPassthroughKey kv.1
        · rw [if_pos hp]
          rw [show (redactEntry kv).1 = kv.1 by simp [redactEntry, hp]] at hhead
          rw [aset_append_of_none _ _ _ hhead]
          simp [redactEntry, hp]
        · rw [if_neg hp]
          rw [show (redactEntry kv).1 = kv.1 ++ "_hash" by simp [redactEntry, hp]] at hhead
          rw [aset_append_of_none _ _ _ hhead]
          simp [redactEntry, hp]
      rw [List.foldl_cons, hstep, ih (acc ++ [redactEntry kv]) hnd.2 ?_]
      · simp
      · intro q hq
        rw [aget_append]
        have hne : (redactEntry kv).1 ≠ q.1 := by
          intro he
          exact hnd.1 (he ▸ List.mem_map.2 ⟨q, hq, rfl⟩)
        rw [hdisj q (List.mem_cons_of_mem _ hq)]
        exact aget_singleton_ne _ _ hne

theorem redact_eq_map (payload : Dict)
    (hnd : ((payload.map redactEntry).map Prod.fst).Nodup) :
    redact payload = payload.map redactEntry := by
  have h := redact_foldl_append payload [] hnd (by intro q hq; rfl)
  simpa [redact] using h

theorem emitted_nodup (payload : Dict)
    (hnd : (payload.map Prod.fst).Nodup)
    (hclash : ∀ kv ∈ payload, isPassthroughKey kv.1 = false →
      (kv.1 ++ "_hash") ∉ payload.map Prod.fst) :
    ((payload.map redactEntry).map Prod.fst).Nodup := by
  induction payload with
  | nil => simp
  | cons kv rest ih =>
      simp only [List.map_cons, List.nodup_cons] at hnd ⊢
      constructor
      · intro hmem
        obtain ⟨q0, hq0, hq0eq⟩ := List.mem_map.1 hmem
        obtain ⟨q, hq, rfl⟩ := List.mem_map.1 hq0
        -- hq0eq : (redactEntry q).1 = (redactEntry kv).1
        by_cases hkp : isPassthroughKey kv.1
        · by_cases hqp : isPassthroughKey q.1
          · have : q.1 = kv.1 := by
              have := hq0eq
              simp [redactEntry, hkp, hqp] at this
              exact this
            exact hnd.1 (this ▸ List.mem_map.2 ⟨q, hq, rfl⟩)
          · have hkv1 : kv.1 = q.1 ++ "_hash" := by
              have := hq0eq
              simp [redactEntry, hkp, hqp] at this
              exact this.symm
            have := hclash q (List.mem_cons_of_mem _ hq)
              (Bool.not_eq_true _ ▸ eq_false_of_ne_true hqp)
            exact this (by rw [← hkv1]; exact List.mem_cons_self _ _)
        · by_cases hqp : isPassthroughKey q.1
          · have hq1 : q.1 = kv.1 ++ "_hash" := by
              have := hq0eq
              simp [redactEntry, hkp, hqp] at this
              exact this
            have := hclash kv (List.mem_cons_self _ _)
              (Bool.not_eq_true _ ▸ eq_false_of_ne_true hkp)
            exact this (by
              rw [← hq1]
              exact List.mem_cons_of_mem _ (List.mem_map.2 ⟨q, hq, rfl⟩))
          · have : q.1 = kv.1 := by
              have heq : q.1 ++ "_hash" = kv.1 ++ "_hash" := by
                have := hq0eq
                simp [redactEntry, hkp, hqp] at this
                exact this
              exact string_append_right_cancel _ _ _ heq
            exact hnd.1 (this ▸ List.mem_map.2 ⟨q, hq, rfl⟩)
      · exact ih hnd.2 (by
          intro q hq hqp hmem
          exact hclash q (List.mem_cons_of_mem _ hq) hqp (List.mem_cons_of_mem _ hmem))

theorem aget_stamp_payload_none (m : AgentMember) (et : String) (pl : Dict) (sid k : String)
    (h1 : k ≠ "event_type") (h2 : k ≠ "session_id") (h3 : k ≠ "aiss_profile") :
    aget (m.stamp et pl sid none none).2.payload k = aget pl k := by
  simp only [AgentMember.stamp, stampEvent]
  rw [aget_aset_ne _ _ _ _ h3, aget_aset_ne _ _ _ _ h2, aget_aset_ne _ _ _ _ h1]

theorem stampOp_unilateral (s : AgentSession) (agent_name event_type : String)
    (payload : Dict) (now : Nat) (agent : AgentMember)
    (hstarted : s.started = true)
    (hA : aget s.agents agent_name = some agent) :
    (s.stampOp agent_name event_type payload none now).1.agents =
      aset s.agents agent_name
        (agent.stamp event_type (redact payload) s.session_id none none).1 ∧
    (s.stampOp agent_name event_type payload none now).2 =
      .ok (agent.stamp event_type (redact payload) s.session_id none none).2 := by
  constructor
  · simp only [AgentSession.stampOp, hstarted, hA, Bool.not_true]
    rfl
  · simp only [AgentSession.stampOp, hstarted, hA, Bool.not_true]
    rfl

theorem passthrough_ne_event_type (k : String) (h : isPassthroughKey k = true) :
    k ≠ "event_type" := by
  intro he
  rw [he] at h
  exact Bool.noConfusion h

theorem passthrough_ne_aiss_profile (k : String) (h : isPassthroughKey k = true) :
    k ≠ "aiss_profile" := by
  intro he
  rw [he] at h
  exact Bool.noConfusion h

theorem not_passthrough_ne_session_id (k : String) (h : isPassthroughKey k = false) :
    k ≠ "session_id" := by
  intro he
  rw [he] at h
  exact Bool.noConfusion h

/-- C6 (amended): on a started session, a unilateral stamp whose
payload has pairwise-distinct keys, no `{key}`/`{key}_hash` collision
pair, and no key equal to the machinery keys `event_type` or
`aiss_profile`, stores every non-passthrough field only as
`{key}_hash = digest(value)` with the raw key absent, and stores every
passthrough field verbatim — except `session_id`, which the stamping
machinery always overwrites with the session's own id. -/
theorem claim6_redaction_amended (s : AgentSession) (agent_name event_type : String)
    (payload : Dict) (now : Nat) (agent : AgentMember)
    (hstarted : s.started = true)
    (hA : aget s.agents agent_name = some agent)
    (hnd : (payload.map Prod.fst).Nodup)
    (hclash : ∀ kv ∈ payload, isPassthroughKey kv.1 = false →
      (kv.1 ++ "_hash") ∉ payload.map Prod.fst)
    (hmach : ∀ kv ∈ payload, kv.1 ≠ "event_type" ∧ kv.1 ≠ "aiss_profile") :
    ∃ m e,
      aget (s.stampOp agent_name event_type payload none now).1.agents agent_name = some m ∧
      m.events.getLast? = some e ∧
      (s.stampOp agent_name event_type payload none now).2 = .ok e ∧
      aget e.payload "session_id" = some (Value.str s.session_id) ∧
      ∀ kv ∈ payload,
        (isPassthroughKey kv.1 = true → kv.1 ≠ "session_id" →
          aget e.payload kv.1 = some kv.2) ∧
        (isPassthroughKey kv.1 = false →
          aget e.payload (kv.1 ++ "_hash") = some (Value.str (hashValue kv.2)) ∧
          aget e.payload kv.1 = none) := by
  obtain ⟨hag, hok⟩ := stampOp_unilateral s agent_name event_type payload now agent hstarted hA
  have hem := emitted_nodup payload hnd hclash
  have hredact := redact_eq_map payload hem
  rw [hag]
  refine ⟨_, _, aget_aset_self _ _ _, ?_, hok, ?_, ?_⟩
  · rw [stamp_fst_events]
    exact List.getLast?_concat _
  · exact stamp_payload_session_id _ _ _ _ _ _
  · intro kv hkv
    constructor
    · intro hp hsid
      rw [aget_stamp_payload_none _ _ _ _ _ (passthrough_ne_event_type _ hp) hsid
        (passthrough_ne_aiss_profile _ hp), hredact]
      have hmem : (kv.1, kv.2) ∈ payload.map redactEntry := by
        refine List.mem_map.2 ⟨kv, hkv, ?_⟩
        simp [redactEntry, hp]
      exact aget_of_mem_nodup _ _ _ hem hmem
    · intro hp
      constructor
      · rw [aget_stamp_payload_none _ _ _ _ _
          (ne_append_of_not_endsWith "event_type" kv.1 "_hash" (by decide)).symm
          (ne_append_of_not_endsWith "session_id" kv.1 "_hash" (by decide)).symm
          (ne_append_of_not_endsWith "aiss_profile" kv.1 "_hash" (by decide)).symm,
          hredact]
        have hmem : (kv.1 ++ "_hash", Value.str (hashValue kv.2)) ∈ payload.map redactEntry := by
          refine List.mem_map.2 ⟨kv, hkv, ?_⟩
          simp [redactEntry, hp]
        exact aget_of_mem_nodup _ _ _ hem hmem
      · rw [aget_stamp_payload_none _ _ _ _ _ (hmach kv hkv).1
          (not_passthrough_ne_session_id _ hp) (hmach kv hkv).2, hredact]
        refine aget_none_of_not_mem _ _ ?_
        intro hmem
        obtain ⟨q0, hq0, hq0eq⟩ := List.mem_map.1 hmem
        obtain ⟨q, hq, rfl⟩ := List.mem_map.1 hq0
        by_cases hqp : isPassthroughKey q.1
        · have hqk : q.1 = kv.1 := by
            have := hq0eq
            simp [redactEntry, hqp] at this
            exact this
          rw [← hqk] at hp
          rw [hqp] at hp
          exact Bool.noConfusion hp
        · have hqk : q.1 ++ "_hash" = kv.1 := by
            have := hq0eq
            simp [redactEntry, hqp] at this
            exact this
          have hpass : isPassthroughKey kv.1 = true := by
            rw [← hqk]
            exact endsWith_hash_passthrough _ (strEndsWith_append q.1 "_hash")
          rw [hpass] at hp
          exact Bool.noConfusion hp

/-- C6 counterexample: a payload field literally named `session_id` is
NOT stored verbatim — the stamping machinery overwrites it with the
session's own id, refuting the pass-through clause of the claim as
stated. -/
theorem claim6_redaction_counterexample :
    lastEventPayloadField
      (wStarted.stampOp "a" "t" [("session_id", Value.str "bogus")] none 7).1 "a" "session_id"
      = some (Value.str wStarted.session_id) ∧
    wStarted.session_id ≠ "bogus" := by
  decide

/-- C6 witness: a concrete unilateral stamp with one redactable and one
passthrough field behaves as the amended redaction rule states. -/
theorem claim6_redaction_amended_witness :
    wStarted.started = true ∧
    aget wStarted.agents "a" = some wAgentA ∧
    (∃ m e,
      aget (wStarted.stampOp "a" "trade" [("symbol", Value.str "AAPL"),
        ("order_id", Value.str "X1")] none 7).1.agents "a" = some m ∧
      m.events.getLast? = some e ∧
      (wStarted.stampOp "a" "trade" [("symbol", Value.str "AAPL"),
        ("order_id", Value.str "X1")] none 7).2 = .ok e ∧
      aget e.payload "session_id" = some (Value.str wStarted.session_id) ∧
      ∀ kv ∈ ([("symbol", Value.str "AAPL"), ("order_id", Value.str "X1")] : Dict),
        (isPassthroughKey kv.1 = true → kv.1 ≠ "session_id" →
          aget e.payload kv.1 = some kv.2) ∧
        (isPassthroughKey kv.1 = false →
          aget e.payload (kv.1 ++ "_hash") = some (Value.str (hashValue kv.2)) ∧
          aget e.payload kv.1 = none)) :=
  ⟨by decide, by decide,
   claim6_redaction_amended wStarted "a" "trade"
     [("symbol", Value.str "AAPL"), ("order_id", Value.str "X1")] 7 wAgentA
     (by decide) (by decide) (by decide)
     (by
       intro kv hkv hp
       simp only [List.mem_cons, List.not_mem_nil, or_false] at hkv
       rcases hkv with rfl | rfl
       · decide
       · decide)
     (by
       intro kv hkv
       simp only [List.mem_cons, List.not_mem_nil, or_false] at hkv
       rcases hkv with rfl | rfl
       · exact ⟨by decide, by decide⟩
       · exact ⟨by decide, by decide⟩)⟩

theorem readCounts_encode (l : List (String × SummaryAgent)) :
    readCounts (l.map (fun p => (p.1, Json.obj [("agent_id", Json.str p.2.agent_id),
      ("event_count", Json.num p.2.event_count), ("last_hash", encodeOptStr p.2.last_hash)])))
      = some (l.map (fun p => (p.1, p.2.event_count))) := by
  induction l with
  | nil => rfl
  | cons p rest ih =>
      simp only [List.map_cons, readCounts]
      rw [show (jlookup (Json.obj [("agent_id", Json.str p.2.agent_id),
        ("event_count", Json.num p.2.event_count),
        ("last_hash", encodeOptStr p.2.last_hash)]) "event_count").bind jnum
        = some p.2.event_count from rfl]
      rw [ih]
      rfl

/-- C8: `export` on a started session leaves the session state
untouched and serializes the summary such that re-reading the export
reproduces `total_events`, `handshake_count` and the per-agent
`event_count` values exactly as `summary()` computes them in memory at
the moment of export. -/
theorem exportOp_started (s : AgentSession) (hstarted : s.started = true) :
    s.exportOp = (s, .ok (Json.obj [("session", encodeSummary s.summary),
      ("agents", Json.obj (s.agents.map (fun p => (p.1, Json.obj
        [("agent_id", Json.str p.2.agent_id), ("event_count", Json.num p.2.events.length),
         ("events", Json.arr (p.2.events.map encodeEvent))]))))])) := by
  simp only [AgentSession.exportOp, hstarted, Bool.not_true]
  rfl

/-- C8: `export` on a started session leaves the session state
untouched and serializes the summary such that re-reading the export
reproduces `total_events`, `handshake_count` and the per-agent
`event_count` values exactly as `summary()` computes them in memory at
the moment of export. -/
theorem claim8_export_roundtrip (s : AgentSession) (hstarted : s.started = true) :
    (s.exportOp).1 = s ∧
    ∃ j, (s.exportOp).2 = .ok j ∧
      readTotalEvents j = some (s.summary).total_events ∧
      readHandshakeCount j = some (s.summary).handshake_count ∧
      readAgentCounts j = some ((s.summary).agents.map (fun p => (p.1, p.2.event_count))) := by
  rw [exportOp_started s hstarted]
  refine ⟨rfl, _, rfl, rfl, rfl, ?_⟩
  show readCounts ((s.summary).agents.map (fun p => (p.1, Json.obj
    [("agent_id", Json.str p.2.agent_id), ("event_count", Json.num p.2.event_count),
     ("last_hash", encodeOptStr p.2.last_hash)]))) = _
  exact readCounts_encode _

/-- C8 witness: the concrete started session round-trips its counts
through the export. -/
theorem claim8_export_roundtrip_witness :
    wStarted.started = true ∧
    (wStarted.exportOp).1 = wStarted ∧
    (∃ j, (wStarted.exportOp).2 = .ok j ∧
      readTotalEvents j = some (wStarted.summary).total_events ∧
      readHandshakeCount j = some (wStarted.summary).handshake_count ∧
      readAgentCounts j
        = some ((wStarted.summary).agents.map (fun p => (p.1, p.2.event_count)))) :=
  ⟨by decide, (claim8_export_roundtrip wStarted (by decide)).1,
   (claim8_export_roundtrip wStarted (by decide)).2⟩

theorem listGet_append_lt (l1 l2 : List (List Nat)) (n : Nat) (h : n < l1.length) :
    (l1 ++ l2).getD n [] = l1.getD n [] := by
  rw [List.getD_eq_getElem?_getD, List.getElem?_append, if_pos h, List.getD_eq_getElem?_getD]

/-- C9 counterexample: the `events` accessor is a shallow copy — a
caller that mutates an event record reached through the returned view
changes the agent's stored history, refuting the claim as stated. -/
theorem claim9_events_copy_counterexample :
    (let st0 : PyState :=
      { lists := [[0]], dicts := [[("event_type", Value.str "session_start")]] }
     let r := eventsAccessor st0 0
     let elem := (listGet r.1 r.2).headD 0
     storedHistory (pyDictSet r.1 elem "tampered" (Value.str "yes")) 0
       ≠ storedHistory st0 0) := by
  decide

/-- C9 (amended): the accessor returns a fresh list object whose
contents are the same event-record references as the log (a shallow
copy): the accessor itself leaves the stored history unchanged, and any
list-level mutation of the returned view (such as appending) leaves the
stored history unchanged — but the records themselves are shared, so
record-level writes through the view do reach the history (see the
counterexample). -/
theorem claim9_events_copy_amended (st : PyState) (log_ref : Nat)
    (h : log_ref < st.lists.length) :
    listGet (eventsAccessor st log_ref).1 (eventsAccessor st log_ref).2
      = listGet st log_ref ∧
    storedHistory (eventsAccessor st log_ref).1 log_ref = storedHistory st log_ref ∧
    ∀ elem_ref : Nat,
      storedHistory
        (pyListAppend (eventsAccessor st log_ref).1 (eventsAccessor st log_ref).2 elem_ref)
        log_ref
        = storedHistory st log_ref := by
  refine ⟨?_, ?_, ?_⟩
  · show (st.lists ++ [listGet st log_ref]).getD st.lists.length [] = listGet st log_ref
    simp [List.getD_append_right, List.getD]
  · show ((st.lists ++ [listGet st log_ref]).getD log_ref []).map _ = _
    rw [listGet_append_lt _ _ _ h]
    rfl
  · intro elem_ref
    show (((st.lists ++ [listGet st log_ref]).set st.lists.length
        (listGet (eventsAccessor st log_ref).1 st.lists.length ++ [elem_ref])).getD
          log_ref []).map _ = _
    rw [List.set_append]
    rw [if_neg (by omega)]
    have hset : st.lists.length - st.lists.length = 0 := by omega
    rw [hset]
    rw [show ([listGet st log_ref].set 0
      (listGet (eventsAccessor st log_ref).1 st.lists.length ++ [elem_ref]))
      = [listGet (eventsAccessor st log_ref).1 st.lists.length ++ [elem_ref]] from rfl]
    rw [listGet_append_lt _ _ _ h]
    rfl

/-- C9 witness: the amended shallow-copy behaviour at a concrete
heap. -/
theorem claim9_events_copy_amended_witness :
    (0 < (PyState.mk [[0]] [[("event_type", Value.str "session_start")]]).lists.length) ∧
    (listGet (eventsAccessor (PyState.mk [[0]] [[("event_type", Value.str "session_start")]]) 0).1
        (eventsAccessor (PyState.mk [[0]] [[("event_type", Value.str "session_start")]]) 0).2
      = listGet (PyState.mk [[0]] [[("event_type", Value.str "session_start")]]) 0 ∧
     storedHistory (eventsAccessor (PyState.mk [[0]] [[("event_type", Value.str "session_start")]]) 0).1 0
      = storedHistory (PyState.mk [[0]] [[("event_type", Value.str "session_start")]]) 0 ∧
     ∀ elem_ref : Nat,
      storedHistory
        (pyListAppend (eventsAccessor (PyState.mk [[0]] [[("event_type", Value.str "session_start")]]) 0).1
          (eventsAccessor (PyState.mk [[0]] [[("event_type", Value.str "session_start")]]) 0).2 elem_ref) 0
        = storedHistory (PyState.mk [[0]] [[("event_type", Value.str "session_start")]]) 0) :=
  ⟨by decide,
   claim9_events_copy_amended (PyState.mk [[0]] [[("event_type", Value.str "session_start")]]) 0
     (by decide)⟩

theorem appendEvent_memberOk (m : AgentMember) (e : Event) (h : memberOk m = true)
    (he : e.previous_hash = m.chainHead) :
    memberOk { m with previous_hash := some (computeEventHash e), events := m.events ++ [e] } = true := by
  unfold memberOk at h ⊢
  simp only [Bool.and_eq_true, beq_iff_eq] at h ⊢
  obtain ⟨hchain, hhead⟩ := h
  constructor
  · rw [chainFrom_append]
    simp only [Bool.and_eq_true, beq_iff_eq]
    exact ⟨hchain, by rw [he]; exact hhead⟩
  · show pyOrGenesis (some (computeEventHash e)) = _
    rw [lastLink, List.getLast?_append]
    simp [computeEventHash, pyOrGenesis_hash]

theorem handshakePair_memberOk (sid : String) (now : Nat) (a b : AgentMember)
    (ha : memberOk a = true) (hb : memberOk b = true) :
    memberOk (handshakePair sid now a b).1 = true ∧
    memberOk (handshakePair sid now a b).2.1 = true :=
  ⟨appendEvent_memberOk a _ ha rfl, appendEvent_memberOk b _ hb rfl⟩

theorem fanoutStep_memberOk (sid : String) (now : Nat) :
    ∀ (bs : List AgentMember) (a : AgentMember),
    memberOk a = true → bs.all memberOk = true →
    memberOk (fanoutStep sid now a bs).1 = true ∧
    (fanoutStep sid now a bs).2.1.all memberOk = true := by
  intro bs
  induction bs with
  | nil =>
      intro a ha _
      exact ⟨ha, rfl⟩
  | cons b rest ih =>
      intro a ha hall
      simp only [List.all_cons, Bool.and_eq_true] at hall
      obtain ⟨h1, h2⟩ := handshakePair_memberOk sid now a b ha hall.1
      obtain ⟨h3, h4⟩ := ih (handshakePair sid now a b).1 h1 hall.2
      simp only [fanoutStep, List.all_cons, Bool.and_eq_true]
      exact ⟨h3, h2, h4⟩

theorem fanoutAux_memberOk (sid : String) (now : Nat) :
    ∀ (fuel : Nat) (ms : List AgentMember),
    ms.all memberOk = true →
    (fanoutAux sid now fuel ms).1.all memberOk = true := by
  intro fuel
  induction fuel with
  | zero => intro ms h; exact h
  | succ fuel ih =>
      intro ms h
      cases ms with
      | nil => rfl
      | cons a rest =>
          simp only [List.all_cons, Bool.and_eq_true] at h
          obtain ⟨h1, h2⟩ := fanoutStep_memberOk sid now rest a h.1 h.2
          simp only [fanoutAux, List.all_cons, Bool.and_eq_true]
          exact ⟨h1, ih _ h2⟩

theorem zip_all_snd (Q : AgentMember → Bool) :
    ∀ (names : List String) (ms : List AgentMember), ms.all Q = true →
    (names.zip ms).all (fun p => Q p.2) = true := by
  intro names
  induction names with
  | nil => intro ms _; rfl
  | cons n rest ih =>
      intro ms h
      cases ms with
      | nil => rfl
      | cons m mrest =>
          simp only [List.all_cons, Bool.and_eq_true] at h
          simp only [List.zip_cons_cons, List.all_cons, Bool.and_eq_true]
          exact ⟨h.1, ih _ h.2⟩

theorem all_map_stamp (l : List (String × AgentMember)) (et : String) (pl : Dict)
    (sid : String) (h : l.all (fun p => memberOk p.2) = true) :
    (l.map (fun p => (p.2.stamp et pl sid none none).1)).all memberOk = true := by
  induction l with
  | nil => rfl
  | cons p rest ih =>
      simp only [List.all_cons, Bool.and_eq_true] at h
      simp only [List.map_cons, List.all_cons, Bool.and_eq_true]
      exact ⟨stamp_preserves_memberOk _ _ _ _ _ _ h.1, ih h.2⟩

theorem all_map_stamp_pairs (l : List (String × AgentMember)) (et : String) (pl : Dict)
    (sid : String) (h : l.all (fun p => memberOk p.2) = true) :
    (l.map (fun p => (p.1, (p.2.stamp et pl sid none none).1))).all
      (fun p => memberOk p.2) = true := by
  induction l with
  | nil => rfl
  | cons p rest ih =>
      simp only [List.all_cons, Bool.and_eq_true] at h
      simp only [List.map_cons, List.all_cons, Bool.and_eq_true]
      exact ⟨stamp_preserves_memberOk _ _ _ _ _ _ h.1, ih h.2⟩

theorem start_sessionOk (s : AgentSession) (now : Nat) (h : sessionOk s = true) :
    sessionOk (s.start now).1 = true := by
  unfold AgentSession.start
  by_cases hs : s.started
  · rw [if_pos hs]
    exact h
  · rw [if_neg hs]
    show ((s.agents.map Prod.fst).zip (fanout s.session_id now _).1).all _ = true
    apply zip_all_snd
    apply fanoutAux_memberOk
    exact all_map_stamp s.agents _ _ _ h

theorem endOp_sessionOk (s : AgentSession) (now : Nat) (h : sessionOk s = true) :
    sessionOk (s.endOp now).1 = true := by
  unfold AgentSession.endOp
  cases hs : s.started with
  | false => exact h
  | true =>
      show (s.agents.map _).all _ = true
      exact all_map_stamp_pairs s.agents _ _ _ h

theorem stampOp_sessionOk (s : AgentSession) (agent_name event_type : String)
    (payload : Dict) (peer : Option String) (now : Nat)
    (h : sessionOk s = true) :
    sessionOk (s.stampOp agent_name event_type payload peer now).1 = true := by
  cases hst : s.started with
  | false =>
      simp only [AgentSession.stampOp, hst]
      exact h
  | true =>
      cases hg : aget s.agents agent_name with
      | none =>
          simp only [AgentSession.stampOp, hst, hg, Bool.not_true]
          exact h
      | some agent =>
          have hagent : memberOk agent = true := all_aget _ _ _ _ h hg
          cases peer with
          | none =>
              obtain ⟨hag, _⟩ := stampOp_unilateral s agent_name event_type payload now
                agent hst hg
              show (s.stampOp agent_name event_type payload none now).1.agents.all
                (fun q => memberOk q.2) = true
              rw [hag]
              refine aset_all _ _ _ _ h ?_
              exact stamp_preserves_memberOk agent event_type (redact payload)
                s.session_id none none hagent
          | some p =>
              cases hp : aget s.agents p with
              | none =>
                  simp only [AgentSession.stampOp, hst, hg, hp, Bool.not_true]
                  exact h
              | some peer_agent =>
                  have hpeer : memberOk peer_agent = true := all_aget _ _ _ _ h hp
                  by_cases hpe : p = agent_name
                  · subst hpe
                    rw [hg] at hp
                    obtain rfl := Option.some.inj hp
                    obtain ⟨hag, _⟩ := stampOp_cosigned_eq s p event_type payload now
                      agent hst hg
                    have h1 : memberOk (agent.stamp event_type
                        (aset (aset (redact payload) "interaction_hash"
                          (Value.str (interactionHash agent.agent_id agent.agent_id now)))
                          "my_role" (Value.str "initiator"))
                        s.session_id (some agent.agent_id) none).1 = true :=
                      stamp_preserves_memberOk agent event_type _ s.session_id _ _ hagent
                    have h2 : memberOk ((agent.stamp event_type
                        (aset (aset (redact payload) "interaction_hash"
                          (Value.str (interactionHash agent.agent_id agent.agent_id now)))
                          "my_role" (Value.str "initiator"))
                        s.session_id (some agent.agent_id) none).1.stamp
                        (event_type ++ "_received")
                        (aset (aset (redact payload) "interaction_hash"
                          (Value.str (interactionHash agent.agent_id agent.agent_id now)))
                          "my_role" (Value.str "responder"))
                        s.session_id (some agent.agent_id)
                        (some (agent.stamp event_type
                          (aset (aset (redact payload) "interaction_hash"
                            (Value.str (interactionHash agent.agent_id agent.agent_id now)))
                            "my_role" (Value.str "initiator"))
                          s.session_id (some agent.agent_id) none).2.signature)).1 = true :=
                      stamp_preserves_memberOk _ (event_type ++ "_received") _
                        s.session_id _ _ h1
                    show (s.stampOp p event_type payload (some p) now).1.agents.all
                      (fun q => memberOk q.2) = true
                    rw [hag]
                    exact aset_all _ _ _ _ (aset_all _ _ _ _ h h1) h2
                  · obtain ⟨hag, _⟩ := stampOp_cosigned_ne s agent_name event_type payload
                      p now agent peer_agent hst hg hp hpe
                    have h1 : memberOk (agent.stamp event_type
                        (aset (aset (redact payload) "interaction_hash"
                          (Value.str (interactionHash agent.agent_id peer_agent.agent_id now)))
                          "my_role" (Value.str "initiator"))
                        s.session_id (some peer_agent.agent_id) none).1 = true :=
                      stamp_preserves_memberOk agent event_type _ s.session_id _ _ hagent
                    have h2 : memberOk (peer_agent.stamp (event_type ++ "_received")
                        (aset (aset (redact payload) "interaction_hash"
                          (Value.str (interactionHash agent.agent_id peer_agent.agent_id now)))
                          "my_role" (Value.str "responder"))
                        s.session_id (some agent.agent_id)
                        (some (agent.stamp event_type
                          (aset (aset (redact payload) "interaction_hash"
                            (Value.str (interactionHash agent.agent_id peer_agent.agent_id now)))
                            "my_role" (Value.str "initiator"))
                          s.session_id (some peer_agent.agent_id) none).2.signature)).1 = true :=
                      stamp_preserves_memberOk peer_agent (event_type ++ "_received") _
                        s.session_id _ _ hpeer
                    show (s.stampOp agent_name event_type payload (some p) now).1.agents.all
                      (fun q => memberOk q.2) = true
                    rw [hag]
                    exact aset_all _ _ _ _ (aset_all _ _ _ _ h h1) h2

theorem foldl_aset_all_pairs (Q : String × AgentMember → Bool)
    (f : String × String → AgentMember)
    (hf : ∀ nf : String × String, Q (nf.1, f nf) = true) :
    ∀ (defs : List (String × String)) (reg : List (String × AgentMember)),
    reg.all Q = true →
    (defs.foldl (fun r nf => aset r nf.1 (f nf)) reg).all Q = true := by
  intro defs
  induction defs with
  | nil =>
      intro reg h
      exact h
  | cons d rest ih =>
      intro reg h
      exact ih _ (aset_all _ _ _ _ h (hf d))

theorem memberOk_init (n f : String) : memberOk (AgentMember.init n f) = true :=
  rfl

theorem mk_sessionOk (defs : List (String × String)) (uuid_hex : String) (s : AgentSession)
    (h : mkAgentSession defs uuid_hex = .ok s) : sessionOk s = true := by
  unfold mkAgentSession at h
  by_cases hl : defs.length < 2
  · rw [if_pos hl] at h
    exact absurd h (by simp)
  · rw [if_neg hl] at h
    obtain rfl := (Except.ok.inj h).symm
    show (List.foldl _ ([] : List (String × AgentMember)) defs).all _ = true
    exact foldl_aset_all_pairs _ _ (fun nf => memberOk_init nf.1 nf.2) defs [] rfl

theorem applyOp_sessionOk (s : AgentSession) (op : Op) (h : sessionOk s = true) :
    sessionOk (applyOp s op) = true := by
  cases op with
  | startOp now => exact start_sessionOk s now h
  | stampOp a et pl pr now => exact stampOp_sessionOk s a et pl pr now h
  | endOp now => exact endOp_sessionOk s now h

theorem runOps_sessionOk :
    ∀ (ops : List Op) (s : AgentSession), sessionOk s = true →
    sessionOk (runOps s ops) = true := by
  intro ops
  induction ops with
  | nil =>
      intro s hs
      exact hs
  | cons op rest ih =>
      intro s hs
      exact ih _ (applyOp_sessionOk s op hs)

/-- C1: for every session constructed by the API and any sequence of
start/stamp/end calls (unilateral and co-signed, in any interleaving,
including rejected calls), every agent's log links from the `"genesis"`
sentinel — each event's `previous_hash` is the digest of the event
immediately before it in that same agent's log — and the agent's chain
head equals the digest of its last event (or `"genesis"` when the log
is empty). -/
theorem claim1_chain_invariant (defs : List (String × String)) (uuid_hex : String)
    (s : AgentSession) (ops : List Op)
    (h : mkAgentSession defs uuid_hex = .ok s) :
    sessionOk (runOps s ops) = true ∧
    ∀ p ∈ (runOps s ops).agents,
      chainFrom "genesis" p.2.events = true ∧
      p.2.chainHead = lastLink "genesis" p.2.events := by
  have h0 : sessionOk (runOps s ops) = true :=
    runOps_sessionOk ops s (mk_sessionOk defs uuid_hex s h)
  refine ⟨h0, ?_⟩
  intro p hp
  have hm := List.all_eq_true.1
    (show (runOps s ops).agents.all (fun q => memberOk q.2) = true from h0) p hp
  unfold memberOk at hm
  simp only [Bool.and_eq_true, beq_iff_eq] at hm
  exact hm

/-- C1 witness: a concrete two-agent session with a mixed interleaving
of handshakes, co-signed and unilateral stamps, rejected calls and a
session end keeps every chain intact. -/
theorem claim1_chain_invariant_witness :
    mkAgentSession [("a", "fa"), ("b", "fb")] "uuidhex" = .ok wFresh ∧
    (sessionOk (runOps wFresh [Op.startOp 5,
      Op.stampOp "a" "reco" [("symbol", Value.str "AAPL")] (some "b") 7,
      Op.stampOp "b" "trade" [("order_id", Value.str "X1")] none 8,
      Op.startOp 9, Op.stampOp "zz" "x" [] none 10, Op.endOp 11]) = true ∧
     ∀ p ∈ (runOps wFresh [Op.startOp 5,
      Op.stampOp "a" "reco" [("symbol", Value.str "AAPL")] (some "b") 7,
      Op.stampOp "b" "trade" [("order_id", Value.str "X1")] none 8,
      Op.startOp 9, Op.stampOp "zz" "x" [] none 10, Op.endOp 11]).agents,
      chainFrom "genesis" p.2.events = true ∧
      p.2.chainHead = lastLink "genesis" p.2.events) :=
  ⟨by decide, claim1_chain_invariant [("a", "fa"), ("b", "fb")] "uuidhex" wFresh _ (by decide)⟩

theorem handshakePair_types (sid : String) (now : Nat) (a b : AgentMember) :
    (handshakePair sid now a b).1.events.map eventTypeOf
      = a.events.map eventTypeOf ++ ["handshake"] ∧
    (handshakePair sid now a b).2.1.events.map eventTypeOf
      = b.events.map eventTypeOf ++ ["handshake"] := by
  constructor
  · show (a.events ++ [_]).map eventTypeOf = _
    rw [List.map_append]
    rfl
  · show (b.events ++ [_]).map eventTypeOf = _
    rw [List.map_append]
    rfl

theorem fanoutStep_uniform (sid : String) (now : Nat) (ts : List String) :
    ∀ (bs : List AgentMember) (a : AgentMember) (ta : List String),
    a.events.map eventTypeOf = ta →
    (∀ m ∈ bs, m.events.map eventTypeOf = ts) →
    ((fanoutStep sid now a bs).1.events.map eventTypeOf
        = ta ++ List.replicate bs.length "handshake") ∧
    (∀ m ∈ (fanoutStep sid now a bs).2.1,
        m.events.map eventTypeOf = ts ++ ["handshake"]) ∧
    (fanoutStep sid now a bs).1.name = a.name ∧
    (fanoutStep sid now a bs).2.1.map (fun m => m.name) = bs.map (fun m => m.name) ∧
    (fanoutStep sid now a bs).2.2.map (fun hk => (hk.agent_a, hk.agent_b))
        = bs.map (fun m => (a.name, m.name)) := by
  intro bs
  induction bs with
  | nil =>
      intro a ta hta _
      refine ⟨by simpa using hta, ?_, rfl, rfl, rfl⟩
      intro m hm
      exact absurd hm (by simp [fanoutStep])
  | cons b rest ih =>
      intro a ta hta hall
      obtain ⟨hpa, hpb⟩ := handshakePair_types sid now a b
      obtain ⟨i1, i2, i3, i4, i5⟩ := ih (handshakePair sid now a b).1 (ta ++ ["handshake"])
        (by rw [hpa, hta])
        (fun m hm => hall m (List.mem_cons_of_mem _ hm))
      refine ⟨?_, ?_, ?_, ?_, ?_⟩
      · show (fanoutStep sid now (handshakePair sid now a b).1 rest).1.events.map
          eventTypeOf = _
        rw [i1, List.append_assoc]
        rfl
      · intro m hm
        rcases List.mem_cons.1 hm with rfl | hm2
        · rw [hpb, hall b (List.mem_cons_self _ _)]
        · exact i2 m hm2
      · show (fanoutStep sid now (handshakePair sid now a b).1 rest).1.name = a.name
        rw [i3]
        rfl
      · show ((handshakePair sid now a b).2.1 ::
          (fanoutStep sid now (handshakePair sid now a b).1 rest).2.1).map
          (fun m => m.name) = _
        rw [List.map_cons, i4]
        rfl
      · show ((handshakePair sid now a b).2.2 ::
          (fanoutStep sid now (handshakePair sid now a b).1 rest).2.2).map
          (fun hk => (hk.agent_a, hk.agent_b)) = _
        rw [List.map_cons, i5]
        rfl

theorem fanoutAux_uniform (sid : String) (now : Nat) :
    ∀ (fuel : Nat) (ts : List String) (ms : List AgentMember),
    ms.length = fuel →
    (∀ m ∈ ms, m.events.map eventTypeOf = ts) →
    (∀ m ∈ (fanoutAux sid now fuel ms).1,
        m.events.map eventTypeOf = ts ++ List.replicate (fuel - 1) "handshake") ∧
    (fanoutAux sid now fuel ms).1.map (fun m => m.name) = ms.map (fun m => m.name) ∧
    (fanoutAux sid now fuel ms).2.map (fun hk => (hk.agent_a, hk.agent_b))
        = ascPairs (ms.map (fun m => m.name)) := by
  intro fuel
  induction fuel with
  | zero =>
      intro ts ms hlen hall
      have hnil : ms = [] := List.length_eq_zero.1 hlen
      subst hnil
      exact ⟨by intro m hm; exact absurd hm (by simp [fanoutAux]), rfl, rfl⟩
  | succ fuel ih =>
      intro ts ms hlen hall
      cases ms with
      | nil => exact absurd hlen (by simp)
      | cons a rest =>
          have hr : rest.length = fuel := by simpa using hlen
          obtain ⟨f1, f2, f3, f4, f5⟩ := fanoutStep_uniform sid now ts rest a ts
            (hall a (List.mem_cons_self _ _))
            (fun m hm => hall m (List.mem_cons_of_mem _ hm))
          have hlen2 : (fanoutStep sid now a rest).2.1.length = fuel := by
            rw [fanoutStep_keeps_length]
            exact hr
          obtain ⟨g1, g2, g3⟩ := ih (ts ++ ["handshake"]) (fanoutStep sid now a rest).2.1
            hlen2 f2
          refine ⟨?_, ?_, ?_⟩
          · intro m hm
            rcases List.mem_cons.1 hm with rfl | hm2
            · rw [f1, hr]
              simp
            · have hg := g1 m hm2
              cases fuel with
              | zero =>
                  have hnil2 : (fanoutStep sid now a rest).2.1 = [] :=
                    List.length_eq_zero.1 hlen2
                  rw [hnil2] at hm2
                  exact absurd hm2 (by simp [fanoutAux])
              | succ g =>
                  rw [hg, List.append_assoc]
                  rfl
          · show ((fanoutStep sid now a rest).1 ::
              (fanoutAux sid now fuel (fanoutStep sid now a rest).2.1).1).map
              (fun m => m.name) = _
            rw [List.map_cons, f3, g2, f4]
            rfl
          · show ((fanoutStep sid now a rest).2.2 ++
              (fanoutAux sid now fuel (fanoutStep sid now a rest).2.1).2).map
              (fun hk => (hk.agent_a, hk.agent_b)) = _
            rw [List.map_append, f5, g3, f4]
            show _ = (rest.map (fun m => m.name)).map (fun y => (a.name, y)) ++
              ascPairs (rest.map (fun m => m.name))
            rw [List.map_map]
            rfl

theorem ascPairs_length_two (l : List String) :
    2 * (ascPairs l).length = l.length * (l.length - 1) := by
  induction l with
  | nil => rfl
  | cons x rest ih =>
      show 2 * (rest.map (fun y => (x, y)) ++ ascPairs rest).length = _
      rw [List.length_append, List.length_map, List.length_cons]
      cases hrr : rest.length with
      | zero =>
          rw [hrr] at ih
          omega
      | succ t =>
          rw [hrr] at ih
          simp only [Nat.add_sub_cancel] at ih ⊢
          have hr2 : (t + 1 + 1) * (t + 1) = (t + 1) * t + 2 * (t + 1) := by ring
          rw [hr2]
          linarith

theorem ascPairs_length (l : List String) :
    (ascPairs l).length = l.length * (l.length - 1) / 2 := by
  have h := ascPairs_length_two l
  omega

theorem mk_shape (defs : List (String × String)) (uuid_hex : String) (s : AgentSession)
    (h : mkAgentSession defs uuid_hex = .ok s) :
    s.started = false ∧ s.handshakes = [] ∧
    s.agents.all (fun p => p.2.events.isEmpty && (p.2.name == p.1)) = true := by
  unfold mkAgentSession at h
  by_cases hl : defs.length < 2
  · rw [if_pos hl] at h
    exact absurd h (by simp)
  · rw [if_neg hl] at h
    obtain rfl := (Except.ok.inj h).symm
    refine ⟨rfl, rfl, ?_⟩
    exact foldl_aset_all_pairs _ _ (fun nf => by simp [AgentMember.init, loadIdentity])
      defs [] rfl

theorem start_shape (s : AgentSession) (now : Nat) (hstarted : s.started = false) :
    (s.start now).2 = .ok () ∧
    (s.start now).1.agents = (s.agents.map Prod.fst).zip
      (fanout s.session_id now (s.agents.map (fun p =>
        (p.2.stamp "session_start" (sessionStartPayload s.session_id
          (s.agents.map (fun q => q.2.agent_id)) (s.agents.map Prod.fst))
          s.session_id none none).1))).1 ∧
    (s.start now).1.handshakes = s.handshakes ++
      (fanout s.session_id now (s.agents.map (fun p =>
        (p.2.stamp "session_start" (sessionStartPayload s.session_id
          (s.agents.map (fun q => q.2.agent_id)) (s.agents.map Prod.fst))
          s.session_id none none).1))).2 := by
  refine ⟨?_, ?_, ?_⟩
  · simp only [AgentSession.start, hstarted]
    rfl
  · simp only [AgentSession.start, hstarted]
    rfl
  · simp only [AgentSession.start, hstarted]
    rfl

/-- C3: on a freshly constructed session, `start()` succeeds, first
appends exactly one `session_start` event to every agent's log and then
one handshake event per pair partner, performs exactly
N·(N−1)/2 pairwise handshakes — one per unordered pair (i, j) with
i < j, rows in ascending registration order — and records exactly one
handshake result per pair, in that order. -/
theorem claim3_start_fanout (defs : List (String × String)) (uuid_hex : String)
    (s : AgentSession) (now : Nat) (h : mkAgentSession defs uuid_hex = .ok s) :
    (s.start now).2 = .ok () ∧
    (s.start now).1.handshakes.map (fun hk => (hk.agent_a, hk.agent_b))
      = ascPairs (s.agents.map Prod.fst) ∧
    (s.start now).1.handshakes.length
      = s.agents.length * (s.agents.length - 1) / 2 ∧
    (s.start now).1.agents.map Prod.fst = s.agents.map Prod.fst ∧
    ∀ p ∈ (s.start now).1.agents,
      p.2.events.map eventTypeOf
        = "session_start" :: List.replicate (s.agents.length - 1) "handshake" := by
  obtain ⟨hstarted, hhs0, hagents⟩ := mk_shape defs uuid_hex s h
  obtain ⟨hok, hag, hhsx⟩ := start_shape s now hstarted
  generalize hst2 : s.agents.map (fun p =>
      (p.2.stamp "session_start" (sessionStartPayload s.session_id
        (s.agents.map (fun q => q.2.agent_id)) (s.agents.map Prod.fst))
        s.session_id none none).1) = stamped at hag hhsx
  have hlen : stamped.length = s.agents.length := by
    rw [← hst2, List.length_map]
  have huni : ∀ m ∈ stamped, m.events.map eventTypeOf = ["session_start"] := by
    intro m hm
    rw [← hst2] at hm
    obtain ⟨p, hp, rfl⟩ := List.mem_map.1 hm
    have hflags := List.all_eq_true.1 hagents p hp
    simp only [Bool.and_eq_true, List.isEmpty_iff, beq_iff_eq] at hflags
    rw [stamp_fst_events, List.map_append, hflags.1]
    simp [stamp_eventTypeOf]
  have hnames : stamped.map (fun m => m.name) = s.agents.map Prod.fst := by
    rw [← hst2, List.map_map]
    apply List.map_congr_left
    intro p hp
    have hflags := List.all_eq_true.1 hagents p hp
    simp only [Bool.and_eq_true, List.isEmpty_iff, beq_iff_eq] at hflags
    exact hflags.2
  have hfd : fanout s.session_id now stamped
      = fanoutAux s.session_id now stamped.length stamped := rfl
  obtain ⟨g1, g2, g3⟩ :=
    fanoutAux_uniform s.session_id now stamped.length ["session_start"] stamped rfl huni
  have hl2 := congrArg List.length g2
  rw [List.length_map, List.length_map] at hl2
  refine ⟨hok, ?_, ?_, ?_, ?_⟩
  · rw [hhsx, hhs0, List.nil_append, hfd, g3, hnames]
  · rw [hhsx, hhs0, List.nil_append, hfd]
    have hlm := congrArg List.length g3
    rw [List.length_map] at hlm
    rw [hlm, hnames, ascPairs_length, List.length_map]
  · rw [hag, hfd]
    refine List.map_fst_zip _ _ ?_
    rw [List.length_map, hl2, hlen]
  · intro p hp
    rw [hag, hfd] at hp
    have hpm := (List.of_mem_zip hp).2
    rw [g1 p.2 hpm, hlen]
    rfl

/-- C3 witness: a concrete three-agent session performs exactly the
three handshakes (a,b), (a,c), (b,c) in that order, after one
`session_start` event per agent. -/
theorem claim3_start_fanout_witness :
    mkAgentSession [("a", "fa"), ("b", "fb"), ("c", "fc")] "uuidhex" = .ok wThree ∧
    ((wThree.start 5).2 = .ok () ∧
     (wThree.start 5).1.handshakes.map (fun hk => (hk.agent_a, hk.agent_b))
       = ascPairs (wThree.agents.map Prod.fst) ∧
     (wThree.start 5).1.handshakes.length
       = wThree.agents.length * (wThree.agents.length - 1) / 2 ∧
     (wThree.start 5).1.agents.map Prod.fst = wThree.agents.map Prod.fst ∧
     ∀ p ∈ (wThree.start 5).1.agents,
       p.2.events.map eventTypeOf
         = "session_start" :: List.replicate (wThree.agents.length - 1) "handshake") :=
  ⟨by decide,
   claim3_start_fanout [("a", "fa"), ("b", "fb"), ("c", "fc")] "uuidhex" wThree 5 (by decide)⟩
